import Mathlib

/-!
# Verification of the fsqd download-queue manager

Shallow embedding of the fsqd repository (src/fsqd): the persistent queue
store (storage.py), the enqueue request handler (main.py) and the download
protocol with its retry/backoff and cancellation logic (download.py).

The diskcache-backed persistence is modelled as explicit state passing over
a `Store` record holding the four item lists; the round trip through the
cache (save then load of well-formed item dicts) is modelled and proved
separately at the dict level (`loadList`/`saveList`).  Wall-clock time,
network traffic and file I/O are modelled by an input script of attempts
consumed by the download pipeline.
-/

namespace Fsqd

/-- QueueItem (storage.py, class QueueItem): id, url, title, size, status,
added_at, error.  Statuses are the literal strings used by the code. -/
structure QueueItem where
  id : String
  url : String
  title : String
  size : String
  status : String
  added_at : String
  error : Option String
deriving Repr, DecidableEq

/-- The four persisted lists (keys queue_active, queue_failed,
queue_completed, queue_downloaded of the diskcache). -/
structure Store where
  active : List QueueItem
  failed : List QueueItem
  completed : List QueueItem
  downloaded : List QueueItem
deriving Repr, DecidableEq

/-- storage.py `_find_index`: index of the first item whose id matches. -/
def find_index (items : List QueueItem) (item_id : String) : Option Nat :=
  match items with
  | [] => none
  | it :: rest =>
    if it.id = item_id then some 0 else (find_index rest item_id).map (· + 1)

/-- storage.py `add_to_queue`: append to the active list. -/
def add_to_queue (item : QueueItem) (s : Store) : Store :=
  { s with active := s.active ++ [item] }

/-- storage.py `remove_from_queue`: delete from active; no-op if absent. -/
def remove_from_queue (item_id : String) (s : Store) : Store :=
  match find_index s.active item_id with
  | none => s
  | some idx => { s with active := s.active.eraseIdx idx }

/-- The tuple-swap `l[i], l[j] = l[j], l[i]` used by `move_in_queue`. -/
def swapAdj (l : List QueueItem) (i j : Nat) : List QueueItem :=
  match l.get? i, l.get? j with
  | some a, some b => (l.set i b).set j a
  | _, _ => l

/-- storage.py `move_in_queue`: swap with the neighbour above or below;
falls through (list unchanged) at either boundary or on an unknown
direction. -/
def move_in_queue (item_id direction : String) (s : Store) : Store :=
  match find_index s.active item_id with
  | none => s
  | some idx =>
    if direction = "up" ∧ 0 < idx then
      { s with active := swapAdj s.active idx (idx - 1) }
    else if direction = "down" ∧ idx < s.active.length - 1 then
      { s with active := swapAdj s.active idx (idx + 1) }
    else s

/-- storage.py `mark_downloading`: stamp status "downloading" on the first
active item with the given id (no check of the previous status). -/
def mark_downloading (item_id : String) (s : Store) : Store :=
  match find_index s.active item_id with
  | none => s
  | some idx =>
    match s.active.get? idx with
    | none => s
    | some item =>
      { s with active := s.active.set idx { item with status := "downloading" } }

/-- storage.py `mark_completed`: pop from active (whatever its status),
stamp "completed", clear error, append to completed. -/
def mark_completed (item_id : String) (s : Store) : Store :=
  match find_index s.active item_id with
  | none => s
  | some idx =>
    match s.active.get? idx with
    | none => s
    | some item =>
      { s with active := s.active.eraseIdx idx,
               completed := s.completed ++ [{ item with status := "completed", error := none }] }

/-- storage.py `mark_failed`: pop from active (whatever its status),
stamp "failed" and the error message, append to failed. -/
def mark_failed (item_id error : String) (s : Store) : Store :=
  match find_index s.active item_id with
  | none => s
  | some idx =>
    match s.active.get? idx with
    | none => s
    | some item =>
      { s with active := s.active.eraseIdx idx,
               failed := s.failed ++ [{ item with status := "failed", error := some error }] }

/-- storage.py `mark_downloaded`: pop from completed, stamp "downloaded",
clear error, append to downloaded. -/
def mark_downloaded (item_id : String) (s : Store) : Store :=
  match find_index s.completed item_id with
  | none => s
  | some idx =>
    match s.completed.get? idx with
    | none => s
    | some item =>
      { s with completed := s.completed.eraseIdx idx,
               downloaded := s.downloaded ++ [{ item with status := "downloaded", error := none }] }

/-- storage.py `retry_failed`: pop from failed, reset to "pending",
clear error, append to active. -/
def retry_failed (item_id : String) (s : Store) : Store :=
  match find_index s.failed item_id with
  | none => s
  | some idx =>
    match s.failed.get? idx with
    | none => s
    | some item =>
      { s with failed := s.failed.eraseIdx idx,
               active := s.active ++ [{ item with status := "pending", error := none }] }

/-- storage.py `clear_failed`. -/
def clear_failed (s : Store) : Store := { s with failed := [] }

/-- storage.py `clear_completed`. -/
def clear_completed (s : Store) : Store := { s with completed := [] }

/-- storage.py `reset_stuck_downloads` (persisted part): every active item
with status "downloading" is forced back to "pending" with the standard
interrupted error.  (The in-memory progress reset it also performs is
modelled at the worker-state level and is irrelevant to the list claims.) -/
def reset_stuck_downloads (s : Store) : Store :=
  { s with active := s.active.map (fun item =>
      if item.status = "downloading" then
        { item with status := "pending", error := some "Download interrupted - please retry" }
      else item) }

/-- storage.py `find_item_by_id` restricted to one list: first item with
the given id. -/
def findItem (l : List QueueItem) (item_id : String) : Option QueueItem :=
  l.find? (fun it => it.id == item_id)

/-- storage.py `find_item_by_id`: search active, failed, completed,
downloaded in that order. -/
def find_item_by_id (s : Store) (item_id : String) : Option QueueItem :=
  match findItem s.active item_id with
  | some it => some it
  | none =>
    match findItem s.failed item_id with
    | some it => some it
    | none =>
      match findItem s.completed item_id with
      | some it => some it
      | none => findItem s.downloaded item_id

/-- Status of an item as observed through `find_item_by_id`. -/
def statusIn (s : Store) (item_id : String) : Option String :=
  (find_item_by_id s item_id).map (·.status)

/-- Error field of an item as observed through `find_item_by_id`. -/
def errorIn (s : Store) (item_id : String) : Option (Option String) :=
  (find_item_by_id s item_id).map (·.error)

/-- Identifiers across all four lists, in list order. -/
def idsOf (s : Store) : List String :=
  (s.active ++ s.failed ++ s.completed ++ s.downloaded).map QueueItem.id

/-- Statuses match list membership: pending/downloading in active, the
terminal statuses in their namesake lists. -/
def statusOk (s : Store) : Prop :=
  (∀ it ∈ s.active, it.status = "pending" ∨ it.status = "downloading") ∧
  (∀ it ∈ s.failed, it.status = "failed") ∧
  (∀ it ∈ s.completed, it.status = "completed") ∧
  (∀ it ∈ s.downloaded, it.status = "downloaded")

/-- The queue invariant (spec section 3): each identifier appears in exactly
one of the four lists (no duplicates anywhere), and list membership matches
the status category. -/
def Inv (s : Store) : Prop := (idsOf s).Nodup ∧ statusOk s

instance (s : Store) : Decidable (statusOk s) := by
  unfold statusOk; infer_instance

instance (s : Store) : Decidable (Inv s) := by
  unfold Inv; infer_instance

/-! ## List helper lemmas -/

/-- The QueueStore operations named by the spec (storage.py public surface). -/
inductive QOp where
  | add (item : QueueItem)
  | remove (item_id : String)
  | move (item_id direction : String)
  | markDownloading (item_id : String)
  | markCompleted (item_id : String)
  | markFailed (item_id error : String)
  | markDownloaded (item_id : String)
  | retryFailed (item_id : String)
  | clearFailed
  | clearCompleted
  | resetStuck

def applyOp : QOp → Store → Store
  | .add item, s => add_to_queue item s
  | .remove i, s => remove_from_queue i s
  | .move i d, s => move_in_queue i d s
  | .markDownloading i, s => mark_downloading i s
  | .markCompleted i, s => mark_completed i s
  | .markFailed i e, s => mark_failed i e s
  | .markDownloaded i, s => mark_downloaded i s
  | .retryFailed i, s => retry_failed i s
  | .clearFailed, s => clear_failed s
  | .clearCompleted, s => clear_completed s
  | .resetStuck, s => reset_stuck_downloads s

/-- Side condition for `add` only: the sole call site (main.py,
add_to_queue_handler) constructs the item with a freshly generated uuid4
identifier and status "pending". -/
def opWF : QOp → Store → Prop
  | .add item, s => item.id ∉ idsOf s ∧ item.status = "pending"
  | _, _ => True

/-- A pending item sitting in the active list. -/
def itP : QueueItem :=
  { id := "a", url := "https://fastshare.cloud/x", title := "t", size := "1 MB",
    status := "pending", added_at := "2024-01-01 00:00:00", error := none }

/-- A second pending item. -/
def itB : QueueItem :=
  { id := "b", url := "https://fastshare.cloud/y", title := "t2", size := "2 MB",
    status := "pending", added_at := "2024-01-01 00:00:01", error := none }

/-- Store with a single pending item in the active list. -/
def sPend : Store := { active := [itP], failed := [], completed := [], downloaded := [] }

/-- Store with two pending items in the active list. -/
def sTwo : Store := { active := [itP, itB], failed := [], completed := [], downloaded := [] }

/-! ## Persistence layer (storage.py `_load_list` / `_save_list`)

The diskcache holds, per key, an arbitrary pickled value.  The code only
inspects whether the value is a list and whether each entry is a dict, and
strips the "progress" key from each dict; field values are uninterpreted (type
parameter below). -/

/-- One entry of a persisted list: a dict of fields, or something else. -/
inductive JEntry (α : Type) where
  | dict (fields : List (String × α))
  | nondict (tag : Nat)
deriving DecidableEq

/-- A value held under a cache key: a list of entries, or something else. -/
inductive CacheVal (α : Type) where
  | list (entries : List (JEntry α))
  | nonList (tag : Nat)
deriving DecidableEq

/-- The key-value store backing the queue (diskcache.Cache). -/
def Cache (α : Type) : Type := List (String × CacheVal α)

/-- `queue_cache.get(key, default)`: the most recently set value wins. -/
def cacheGet {α : Type} (c : Cache α) (key : String) : Option (CacheVal α) :=
  (List.find? (fun kv => kv.1 == key) c).map (·.2)

/-- `queue_cache.set(key, v)`. -/
def cacheSet {α : Type} (c : Cache α) (key : String) (v : CacheVal α) : Cache α :=
  (key, v) :: c

/-- `item.pop("progress", None)` on a dict (keys are unique in a dict, so
removing every binding of the key is the same operation). -/
def popProgress {α : Type} (fields : List (String × α)) : List (String × α) :=
  fields.filter (fun kv => kv.1 != "progress")

/-- storage.py `_load_list`: non-list cache values reset to `[]`; non-dict
entries are dropped; each kept dict is copied with "progress" removed. -/
def loadList {α : Type} (c : Cache α) (key : String) : List (List (String × α)) :=
  match cacheGet c key with
  | none => []
  | some (.nonList _) => []
  | some (.list entries) =>
    entries.filterMap (fun e =>
      match e with
      | .dict fields => some (popProgress fields)
      | .nondict _ => none)

/-- storage.py `_save_list`: each item is copied, "progress" removed, and the
whole list written back under the key. -/
def saveList {α : Type} (c : Cache α) (key : String)
    (items : List (List (String × α))) : Cache α :=
  cacheSet c key (.list (items.map (fun fields => .dict (popProgress fields))))

/-- Witness state for the round-trip theorem. -/
def cacheW : Cache String := [("queue_failed", .nonList 0)]

/-! ## Enqueue handler (main.py `add_to_queue_handler`) -/

/-- Character-list version of Python str.startswith. -/
def listStartsWith : List Char → List Char → Bool
  | [], _ => true
  | _ :: _, [] => false
  | a :: as, b :: bs => a == b && listStartsWith as bs

/-- Character-list version of the Python substring test `needle in hay`. -/
def listContainsSub (needle : List Char) : List Char → Bool
  | [] => needle.isEmpty
  | c :: rest => listStartsWith needle (c :: rest) || listContainsSub needle rest

/-- Python `needle in hay` on strings. -/
def strContains (hay needle : String) : Bool := listContainsSub needle.data hay.data

/-- Python str.strip default whitespace set (ASCII part). -/
def isPySpace (c : Char) : Bool :=
  c == ' ' || c == '\t' || c == '\n' || c == '\r' || c == '\x0b' || c == '\x0c'

/-- Python `url.strip()`. -/
def pyStrip (s : String) : String :=
  String.mk (((s.data.dropWhile isPySpace).reverse.dropWhile isPySpace).reverse)

/-- Character-list version of str.endswith. -/
def listEndsWith (needle hay : List Char) : Bool :=
  listStartsWith needle.reverse hay.reverse

/-- In-memory progress map update `progress_store[id] = {"progress": v, ...}`
(speed strings elided: they are float-formatted display values no claim
depends on). -/
def setProgressEntry (item_id : String) (v : Nat) (m : List (String × Nat)) :
    List (String × Nat) :=
  (item_id, v) :: m.filter (fun kv => kv.1 != item_id)

/-- State visible to the request handlers: the persisted store plus the
in-memory progress map. -/
structure WebSt where
  store : Store
  progress : List (String × Nat)
deriving DecidableEq

/-- main.py `add_to_queue_handler`: the posted url is stripped; an empty
url or one not containing the substring "fastshare.cloud" is rejected with
a 400 text (returned as `some msg`) and no state change; otherwise an item
with the freshly generated uuid4 identifier (a parameter here), best-effort
scraped title/size and status "pending" is appended to the active list and
its progress entry zeroed. -/
def add_to_queue_handler (rawUrl freshId title size timestamp : String)
    (w : WebSt) : Option String × WebSt :=
  let url := pyStrip rawUrl
  if url = "" then (some "URL is required", w)
  else if strContains url "fastshare.cloud" = false then
    (some "Only fastshare.cloud links are allowed", w)
  else
    let item : QueueItem :=
      { id := freshId, url := url, title := title, size := size,
        status := "pending", added_at := timestamp, error := none }
    (none, { store := add_to_queue item w.store,
             progress := setProgressEntry freshId 0 w.progress })

/-- Everything after the first "://" of a URL. -/
def hostStart : List Char → List Char
  | ':' :: '/' :: '/' :: rest => rest
  | _ :: rest => hostStart rest
  | [] => []

/-- Modelled from the spec: "validates the URL belongs to the allowed
hosting domain".  The host component of a URL (the characters between
"://" and the first "/", ":", "?" or "#"), used only to compare the spec
notion of domain membership with the code's substring test. -/
def urlHost (url : String) : String :=
  String.mk ((hostStart url.data).takeWhile
    (fun c => c != '/' && c != ':' && c != '?' && c != '#'))

/-- Modelled from the spec: a URL belongs to the hosting domain
fastshare.cloud when its host is that domain or a subdomain of it. -/
def belongsToFastshare (url : String) : Bool :=
  urlHost url == "fastshare.cloud" || listEndsWith ".fastshare.cloud".data (urlHost url).data

/-- Initial handler state for the witnesses: empty store, empty progress. -/
def w0 : WebSt :=
  { store := { active := [], failed := [], completed := [], downloaded := [] }, progress := [] }

/-! ## Download pipeline (download.py)

Network traffic is modelled by a script of `Attempt`s consumed in order:
each attempt holds the outcome of one page-fetch-and-parse
(`_get_download_form`) and one POST to the resolved form action.  An
`Except.error e` models a Python exception with message `e`.  Wall-clock
readings and concurrent cancellation are modelled per streamed chunk
(`intervalElapsed`, `cancelSet`).  The worker state `St` carries the store,
the in-memory progress and cancellation maps, and two ghost traces
(`recorded`, `waits`) logging the percent values passed to
`update_item_progress` and the sleeps performed by the retry handler. -/

/-- A form element of the scraped page; `action = none` models a
missing-or-non-string action value, `some ""` an empty one. -/
structure Form where
  action : Option String
deriving DecidableEq

def strStartsWith (s p : String) : Bool := listStartsWith p.data s.data

/-- The `for f in soup.find_all("form")` scan of `_get_download_form`:
first form whose string action starts with "/free/". -/
def findFreeForm : List Form → Option String
  | [] => none
  | f :: rest =>
    match f.action with
    | some a => if strStartsWith a "/free/" then some a else findFreeForm rest
    | none => findFreeForm rest

/-- download.py `_get_download_form`, form-resolution part (the two GETs are
part of the attempt script; `urljoin` is elided, the action itself is
returned).  No form, or a first form whose action is missing, empty or not a
string, yields `none`; a first-form action starting with "/free/" is used;
otherwise all forms are scanned. -/
def resolveFormAction (forms : List Form) : Option String :=
  match forms with
  | [] => none
  | f :: _ =>
    match f.action with
    | none => none
    | some fa =>
      if fa = "" then none
      else if strStartsWith fa "/free/" then some fa
      else findFreeForm forms

/-- One streamed chunk: its byte count, the cancellation flag observed at
the top of the loop iteration, and whether the wall-clock interval since the
last update has elapsed when it is processed. -/
structure Chunk where
  size : Nat
  cancelSet : Bool
  intervalElapsed : Bool
deriving DecidableEq

/-- A POST response: status, headers and the streamed body.  `streamExn`
models an exception raised by the stream after the listed chunks were
read. -/
structure PostResp where
  status : Nat
  contentType : String
  contentLength : Nat
  chunks : List Chunk
  streamExn : Option String
deriving DecidableEq

/-- One fetch-form-and-submit attempt of the script. -/
structure Attempt where
  page : Except String (List Form)
  post : Except String PostResp

/-- Worker-side state. -/
structure St where
  store : Store
  progress : List (String × Nat)
  cancelKeys : List String
  recorded : List Nat
  waits : List Nat
deriving DecidableEq

def setAssoc (k : String) (v : Nat) : List (String × Nat) → List (String × Nat)
  | [] => []
  | kv :: rest => if kv.1 == k then (k, v) :: rest else kv :: setAssoc k v rest

/-- storage.py `update_item_progress`: create a zeroed entry if absent, then
write the given fields (speed strings elided).  The ghost trace `recorded`
logs every percent value actually passed. -/
def update_item_progress (item_id : String) (p : Option Nat) (st : St) : St :=
  let m := if (st.progress.find? (fun kv => kv.1 == item_id)).isSome then st.progress
           else (item_id, 0) :: st.progress
  match p with
  | some v => { st with progress := setAssoc item_id v m, recorded := st.recorded ++ [v] }
  | none => { st with progress := m }

def markFailedSt (item_id err : String) (st : St) : St :=
  { st with store := mark_failed item_id err st.store }

def markCompletedSt (item_id : String) (st : St) : St :=
  { st with store := mark_completed item_id st.store }

/-- Ghost log of `asyncio.sleep` in `_handle_html_response`. -/
def recordWait (w : Nat) (st : St) : St := { st with waits := st.waits ++ [w] }

/-- download.py `_setup_cancel_event`: `download_cancel_events[item_id] = event`. -/
def setupCancelEvent (item_id : String) (st : St) : St :=
  { st with cancelKeys :=
      if st.cancelKeys.contains item_id then st.cancelKeys else item_id :: st.cancelKeys }

/-- download.py `_cleanup_cancel_event`: delete the key if present. -/
def cleanupCancelEvent (item_id : String) (st : St) : St :=
  { st with cancelKeys := st.cancelKeys.filter (fun k => k != item_id) }

def lowerStr (s : String) : String := String.mk (s.data.map Char.toLower)

/-- The content-type allow-list of `_download_file_content`. -/
def isValidContentType (ct : String) : Bool :=
  strContains ct "application/octet-stream" ||
  strContains ct "application/force-download" ||
  strStartsWith ct "video/" || strStartsWith ct "audio/"

/-- `int((downloaded / total_size) * 100)` (exact rather than float; both are
monotone in `downloaded`, which is all the claims use). -/
def pct (downloaded total : Nat) : Nat := downloaded * 100 / total

inductive StreamOut where
  | cancelled
  | finished
deriving DecidableEq

/-- The chunk loop of `_download_file_content` (file writes elided):
cancellation check first, then the interval-driven update (progress and
speed together; `if progress:` keeps `last_progress` only for truthy
values), then the percent-increase-driven immediate update. -/
def streamLoop (item_id : String) (total : Nat) :
    List Chunk → Nat → Nat → Int → St → StreamOut × St
  | [], _, _, _, st => (.finished, st)
  | c :: rest, downloaded, bytesSince, lastProgress, st =>
    if c.cancelSet then
      (.cancelled, markFailedSt item_id "Download cancelled by user" st)
    else
      let downloaded2 := downloaded + c.size
      let bytesSince2 := bytesSince + c.size
      if c.intervalElapsed then
        let progress : Option Nat := if 0 < total then some (pct downloaded2 total) else none
        let st2 := update_item_progress item_id progress st
        let lastProgress2 : Int := match progress with
          | some p => if p ≠ 0 then (p : Int) else lastProgress
          | none => lastProgress
        streamLoop item_id total rest downloaded2 0 lastProgress2 st2
      else if 0 < total then
        let p := pct downloaded2 total
        if lastProgress < (p : Int) then
          streamLoop item_id total rest downloaded2 bytesSince2 (p : Int)
            (update_item_progress item_id (some p) st)
        else streamLoop item_id total rest downloaded2 bytesSince2 lastProgress st
      else streamLoop item_id total rest downloaded2 bytesSince2 lastProgress st

/-- The body of a download attempt, exceptions flowing out as `exn`. -/
structure BodyRes where
  st : St
  evs : List Attempt
  exn : Option String

/-- download.py `_download_file_content`, parametrised by the retry
continuation (`_handle_html_response` entered with `retry_count = 0`, as at
line 137 of the source). -/
def downloadFileContentAux (retryHandler : List Attempt → St → BodyRes)
    (item_id : String) (resp : PostResp) (evs : List Attempt) (st : St) : BodyRes :=
  let ct := lowerStr resp.contentType
  if isValidContentType ct = false then
    if strContains ct "text/html" then retryHandler evs st
    else ⟨markFailedSt item_id ("Invalid content type: " ++ ct) st, evs, none⟩
  else
    match streamLoop item_id resp.contentLength resp.chunks 0 0 (-1) st with
    | (.cancelled, st2) => ⟨st2, evs, none⟩
    | (.finished, st2) =>
      match resp.streamExn with
      | some e => ⟨st2, evs, some e⟩
      | none =>
        ⟨markCompletedSt item_id (update_item_progress item_id (some 100) st2), evs, none⟩

/-- download.py `_handle_html_response`.  The `fuel` argument only bounds
the recursion depth for Lean (the Python recursion is bounded by nothing
but the incoming responses); every caller passes fuel exceeding the script
length, so the fuel-exhausted branch is unreachable on any run that
consumes the script.  Each pass: cap check on `retry_count` (3), sleep
`2 ** retry_count`, re-fetch the form, re-post; an exception during the
retried post or the nested content handling is caught and retried with
`retry_count + 1`, while the nested content handler re-enters with
`retry_count = 0`. -/
def handleHtml (item_id : String) : Nat → List Attempt → Nat → St → BodyRes
  | 0, evs, _, st => ⟨st, evs, some "retry depth exhausted"⟩
  | fuel + 1, evs, retryCount, st =>
    if 3 ≤ retryCount then
      ⟨markFailedSt item_id "Max retries reached for HTML response" st, evs, none⟩
    else
      let st2 := recordWait (2 ^ retryCount) st
      match evs with
      | [] => ⟨st2, [], some "event script exhausted"⟩
      | a :: rest =>
        match a.page with
        | .error e => ⟨st2, rest, some e⟩
        | .ok forms =>
          match resolveFormAction forms with
          | none => ⟨markFailedSt item_id "Could not get download form after retry" st2, rest, none⟩
          | some _ =>
            match a.post with
            | .error _ => handleHtml item_id fuel rest (retryCount + 1) st2
            | .ok resp =>
              if resp.status ≠ 200 then
                ⟨markFailedSt item_id ("Retry failed: " ++ toString resp.status) st2, rest, none⟩
              else
                let r := downloadFileContentAux
                  (fun evs2 st3 => handleHtml item_id fuel evs2 0 st3) item_id resp rest st2
                match r.exn with
                | some _ => handleHtml item_id fuel r.evs (retryCount + 1) r.st
                | none => r

/-- The protected body of download.py `download_file`: resolve the form
(failing with "Could not get download form"), POST to it
(`_perform_download`, failing with "Download request failed: {status}" on a
non-200), then hand the response to the content handler. -/
def downloadBody (item_id : String) (fuel : Nat) (evs : List Attempt) (st : St) : BodyRes :=
  match evs with
  | [] => ⟨st, [], some "event script exhausted"⟩
  | a :: rest =>
    match a.page with
    | .error e => ⟨st, rest, some e⟩
    | .ok forms =>
      match resolveFormAction forms with
      | none => ⟨markFailedSt item_id "Could not get download form" st, rest, none⟩
      | some _ =>
        match a.post with
        | .error e => ⟨st, rest, some e⟩
        | .ok resp =>
          if resp.status ≠ 200 then
            ⟨markFailedSt item_id ("Download request failed: " ++ toString resp.status) st, rest, none⟩
          else
            downloadFileContentAux (fun evs2 st2 => handleHtml item_id fuel evs2 0 st2)
              item_id resp rest st

/-- download.py `_get_pending_item`: first active item with the id, only if
its status is "pending". -/
def getPendingItem (s : Store) (item_id : String) : Option QueueItem :=
  match s.active.find? (fun i => i.id == item_id) with
  | none => none
  | some item => if item.status = "pending" then some item else none

/-- download.py `download_file`: bail out before the try block when the item
is not pending; otherwise mark downloading, register the cancel event, zero
the progress, run the body, convert an escaped exception into a failed
transition carrying its message, and unconditionally (finally) remove the
cancel event. -/
def download_file (item_id : String) (evs : List Attempt) (st : St) : St :=
  match getPendingItem st.store item_id with
  | none => st
  | some _ =>
    let st1 := { st with store := mark_downloading item_id st.store }
    let st2 := setupCancelEvent item_id st1
    let st3 := update_item_progress item_id (some 0) st2
    let r := downloadBody item_id (evs.length + 1) evs st3
    let st4 := match r.exn with
      | some e => markFailedSt item_id e r.st
      | none => r.st
    cleanupCancelEvent item_id st4

/-- One iteration of download.py `download_worker`: scan the active list in
order for the first pending item and drive `download_file` on it (the
sleeps are elided).  Total by construction: every failure inside the
iteration has been converted into state, none escapes. -/
def worker_iteration (evs : List Attempt) (st : St) : St :=
  match st.store.active.find? (fun it => it.status == "pending") with
  | some item => download_file item.id evs st
  | none => st

/-- download.py `cancel_download`: set the signal if registered (observed by
the stream loop via `Chunk.cancelSet`), force the item to failed, zero the
progress. -/
def cancel_download (item_id : String) (st : St) : St :=
  update_item_progress item_id (some 0)
    (markFailedSt item_id "Download cancelled by user" st)

/-- Witness state for the pipeline theorems: one pending item "a". -/
def stW : St := { store := sPend, progress := [], cancelKeys := [], recorded := [], waits := [] }

/-- A page holding one qualifying download form. -/
def freeForms : List Form := [{ action := some "/free/x" }]

/-- A 200 response that is a holding page (text/html). -/
def htmlResp : PostResp :=
  { status := 200, contentType := "text/html", contentLength := 0, chunks := [], streamExn := none }

/-- A 200 response with a valid content type and an empty body. -/
def octetResp : PostResp :=
  { status := 200, contentType := "application/octet-stream", contentLength := 0, chunks := [],
    streamExn := none }

/-- An attempt answered by the holding page. -/
def htmlAttempt : Attempt := { page := .ok freeForms, post := .ok htmlResp }

/-- An attempt that delivers the file. -/
def okAttempt : Attempt := { page := .ok freeForms, post := .ok octetResp }

/-- An attempt whose submit raises an exception. -/
def exnAttempt (e : String) : Attempt := { page := .ok freeForms, post := .error e }

/-- The state right after `download_file` on `stW` has marked the item
downloading, registered the cancel event and zeroed the progress. -/
def stDown : St :=
  { store := { active := [{ itP with status := "downloading" }], failed := [], completed := [],
               downloaded := [] },
    progress := [("a", 0)], cancelKeys := ["a"], recorded := [0], waits := [] }

/-- Ghost accumulator for the unit waits of consecutive HTML retries. -/
def addUnitWaits (n : Nat) (st : St) : St :=
  { st with waits := st.waits ++ List.replicate n 1 }

/-- A single attempt that delivers a streaming response with the given
content type, declared length and chunk sequence. -/
def streamAttempt (ct : String) (total : Nat) (chunks : List Chunk) : Attempt :=
  { page := Except.ok freeForms,
    post := Except.ok { status := 200, contentType := ct, contentLength := total,
                        chunks := chunks, streamExn := none } }

theorem find_index_get? (l : List QueueItem) (item_id : String) (i : Nat)
    (h : find_index l item_id = some i) :
    ∃ it, l.get? i = some it ∧ it.id = item_id := by
  induction l generalizing i with
  | nil => simp [find_index] at h
  | cons hd tl ih =>
    by_cases hh : hd.id = item_id
    · simp [find_index, hh] at h
      subst h
      exact ⟨hd, rfl, hh⟩
    · simp only [find_index, if_neg hh, Option.map_eq_some'] at h
      obtain ⟨j, hj, rfl⟩ := h
      obtain ⟨it, hit, hid⟩ := ih j hj
      exact ⟨it, by simpa using hit, hid⟩

theorem get?_perm_eraseIdx {α : Type} (l : List α) (i : Nat) (a : α)
    (h : l.get? i = some a) : l.Perm (a :: l.eraseIdx i) := by
  induction l generalizing i with
  | nil => simp at h
  | cons hd tl ih =>
    cases i with
    | zero =>
      simp only [List.get?] at h
      cases h
      simp [List.eraseIdx]
    | succ n =>
      simp only [List.get?_cons_succ] at h
      have hperm := ih n h
      have h1 : (hd :: tl).Perm (hd :: a :: tl.eraseIdx n) := List.Perm.cons hd hperm
      have h2 : (hd :: a :: tl.eraseIdx n).Perm (a :: hd :: tl.eraseIdx n) :=
        List.Perm.swap a hd _
      simpa [List.eraseIdx_cons_succ] using h1.trans h2

theorem set_of_get?_self {α : Type} (l : List α) (i : Nat) (a : α)
    (h : l.get? i = some a) : l.set i a = l := by
  induction l generalizing i with
  | nil => simp
  | cons hd tl ih =>
    cases i with
    | zero =>
      simp only [List.get?] at h
      cases h
      simp
    | succ n =>
      simp only [List.get?_cons_succ] at h
      simp [List.set_cons_succ, ih n h]

theorem mem_eraseIdx {α : Type} {l : List α} {i : Nat} {x : α}
    (h : x ∈ l.eraseIdx i) : x ∈ l :=
  (List.eraseIdx_sublist l i).mem h

theorem set_perm_cons_eraseIdx {α : Type} (l : List α) (i : Nat) (b x : α)
    (h : l.get? i = some b) : (l.set i x).Perm (x :: l.eraseIdx i) := by
  induction l generalizing i with
  | nil => simp at h
  | cons hd tl ih =>
    cases i with
    | zero => simp [List.eraseIdx]
    | succ n =>
      simp only [List.get?_cons_succ] at h
      have h1 := ih n h
      have h2 : (hd :: tl).set (n + 1) x = hd :: tl.set n x := by simp
      rw [h2, List.eraseIdx_cons_succ]
      exact (List.Perm.cons hd h1).trans (List.Perm.swap x hd _)

theorem swapAdj_perm (l : List QueueItem) (i j : Nat) : (swapAdj l i j).Perm l := by
  induction l generalizing i j with
  | nil => simp [swapAdj]
  | cons hd tl ih =>
    cases i with
    | zero =>
      cases j with
      | zero => simp [swapAdj]
      | succ m =>
        cases hm : tl.get? m with
        | none =>
          rw [List.get?_eq_getElem?] at hm
          simp [swapAdj, hm]
        | some b =>
          have h1 : (tl.set m hd).Perm (hd :: tl.eraseIdx m) :=
            set_perm_cons_eraseIdx tl m b hd hm
          have h2 : tl.Perm (b :: tl.eraseIdx m) := get?_perm_eraseIdx tl m b hm
          rw [List.get?_eq_getElem?] at hm
          have hred : swapAdj (hd :: tl) 0 (m + 1) = b :: tl.set m hd := by
            simp [swapAdj, hm]
          rw [hred]
          exact (List.Perm.cons b h1).trans
            ((List.Perm.swap hd b _).trans (List.Perm.cons hd h2.symm))
    | succ n =>
      cases j with
      | zero =>
        cases hn : tl.get? n with
        | none =>
          rw [List.get?_eq_getElem?] at hn
          simp [swapAdj, hn]
        | some a =>
          have h1 : (tl.set n hd).Perm (hd :: tl.eraseIdx n) :=
            set_perm_cons_eraseIdx tl n a hd hn
          have h2 : tl.Perm (a :: tl.eraseIdx n) := get?_perm_eraseIdx tl n a hn
          rw [List.get?_eq_getElem?] at hn
          have hred : swapAdj (hd :: tl) (n + 1) 0 = a :: tl.set n hd := by
            simp [swapAdj, hn]
          rw [hred]
          exact (List.Perm.cons a h1).trans
            ((List.Perm.swap hd a _).trans (List.Perm.cons hd h2.symm))
      | succ m =>
        cases hn : tl.get? n with
        | none =>
          rw [List.get?_eq_getElem?] at hn
          simp [swapAdj, hn]
        | some a =>
          cases hm : tl.get? m with
          | none =>
            rw [List.get?_eq_getElem?] at hn hm
            simp [swapAdj, hn, hm]
          | some b =>
            rw [List.get?_eq_getElem?] at hn hm
            have hred : swapAdj (hd :: tl) (n + 1) (m + 1) = hd :: swapAdj tl n m := by
              simp [swapAdj, hn, hm]
            rw [hred]
            exact List.Perm.cons hd (ih n m)

theorem swapAdj_mem {l : List QueueItem} {i j : Nat} {x : QueueItem}
    (h : x ∈ swapAdj l i j) : x ∈ l := (swapAdj_perm l i j).subset h

/-- Replacing one element (same identifier) anywhere in the queue system
keeps the identifier list duplicate-free. -/
theorem nodup_ids_replace {l l' rest : List QueueItem} {item : QueueItem}
    (h1 : l.Perm (item :: rest))
    (h2 : (l'.map QueueItem.id).Perm (item.id :: rest.map QueueItem.id))
    (hnd : (l.map QueueItem.id).Nodup) : (l'.map QueueItem.id).Nodup := by
  have hnd2 : ((item :: rest).map QueueItem.id).Nodup := (h1.map QueueItem.id).nodup hnd
  exact h2.symm.nodup (by simpa using hnd2)

theorem Inv_add (item : QueueItem) (s : Store) (h : Inv s)
    (hfresh : item.id ∉ idsOf s) (hpend : item.status = "pending") :
    Inv (add_to_queue item s) := by
  obtain ⟨hnd, hA, hF, hC, hD⟩ := h
  simp only [idsOf, List.append_assoc] at hnd hfresh
  refine ⟨?_, ?_, hF, hC, hD⟩
  · simp only [idsOf, add_to_queue, List.append_assoc]
    have hp : (s.active ++ ([item] ++ (s.failed ++ (s.completed ++ s.downloaded)))).Perm
        (item :: (s.active ++ (s.failed ++ (s.completed ++ s.downloaded)))) :=
      @List.perm_middle _ item s.active (s.failed ++ (s.completed ++ s.downloaded))
    refine ((hp.map QueueItem.id).symm).nodup ?_
    simp only [List.map_cons]
    exact List.nodup_cons.mpr ⟨hfresh, hnd⟩
  · intro it hit
    simp only [add_to_queue, List.mem_append, List.mem_singleton] at hit
    rcases hit with hit | rfl
    · exact hA it hit
    · exact Or.inl hpend

theorem Inv_remove (item_id : String) (s : Store) (h : Inv s) :
    Inv (remove_from_queue item_id s) := by
  obtain ⟨hnd, hA, hF, hC, hD⟩ := h
  unfold remove_from_queue
  cases hfi : find_index s.active item_id with
  | none => exact ⟨hnd, hA, hF, hC, hD⟩
  | some idx =>
    refine ⟨?_, ?_, hF, hC, hD⟩
    · simp only [idsOf, List.append_assoc] at hnd ⊢
      refine List.Nodup.sublist (List.Sublist.map _ ?_) hnd
      exact List.Sublist.append (List.eraseIdx_sublist _ _) (List.Sublist.refl _)
    · intro it hit
      exact hA it (mem_eraseIdx hit)

theorem Inv_move (item_id direction : String) (s : Store) (h : Inv s) :
    Inv (move_in_queue item_id direction s) := by
  obtain ⟨hnd, hA, hF, hC, hD⟩ := h
  unfold move_in_queue
  cases hfi : find_index s.active item_id with
  | none => exact ⟨hnd, hA, hF, hC, hD⟩
  | some idx =>
    have hswap : ∀ j, Inv { s with active := swapAdj s.active idx j } := by
      intro j
      refine ⟨?_, ?_, hF, hC, hD⟩
      · simp only [idsOf, List.append_assoc] at hnd ⊢
        exact ((((swapAdj_perm s.active idx j).append_right _).map QueueItem.id)).symm.nodup
          (by exact hnd)
      · intro it hit
        exact hA it (swapAdj_mem hit)
    by_cases h1 : direction = "up" ∧ 0 < idx
    · simp only [if_pos h1]
      exact hswap _
    · simp only [if_neg h1]
      by_cases h2 : direction = "down" ∧ idx < s.active.length - 1
      · simp only [if_pos h2]
        exact hswap _
      · simp only [if_neg h2]
        exact ⟨hnd, hA, hF, hC, hD⟩

theorem Inv_mark_downloading (item_id : String) (s : Store) (h : Inv s) :
    Inv (mark_downloading item_id s) := by
  obtain ⟨hnd, hA, hF, hC, hD⟩ := h
  unfold mark_downloading
  split
  · exact ⟨hnd, hA, hF, hC, hD⟩
  next idx hfi =>
    split
    · exact ⟨hnd, hA, hF, hC, hD⟩
    next item hget =>
      refine ⟨?_, ?_, hF, hC, hD⟩
      · simp only [idsOf] at hnd ⊢
        have hmap : (s.active.set idx { item with status := "downloading" }).map QueueItem.id
            = s.active.map QueueItem.id := by
          rw [List.map_set]
          refine set_of_get?_self _ _ _ ?_
          rw [List.get?_map, hget]
          rfl
        simp only [List.map_append] at hnd ⊢
        rw [hmap]
        exact hnd
      · intro it hit
        rcases List.mem_or_eq_of_mem_set hit with hit | rfl
        · exact hA it hit
        · exact Or.inr rfl

theorem Inv_mark_failed (item_id err : String) (s : Store) (h : Inv s) :
    Inv (mark_failed item_id err s) := by
  obtain ⟨hnd, hA, hF, hC, hD⟩ := h
  unfold mark_failed
  split
  · exact ⟨hnd, hA, hF, hC, hD⟩
  next idx hfi =>
    split
    · exact ⟨hnd, hA, hF, hC, hD⟩
    next item hget =>
      have hpermA : s.active.Perm (item :: s.active.eraseIdx idx) :=
        get?_perm_eraseIdx _ _ _ hget
      refine ⟨?_, ?_, ?_, hC, hD⟩
      · simp only [idsOf, List.append_assoc] at hnd ⊢
        have h1 : (s.active ++ (s.failed ++ (s.completed ++ s.downloaded))).Perm
            (item :: (s.active.eraseIdx idx ++ (s.failed ++ (s.completed ++ s.downloaded)))) := by
          simpa using hpermA.append_right (s.failed ++ (s.completed ++ s.downloaded))
        have h2 : (s.active.eraseIdx idx ++
              ((s.failed ++ [{ item with status := "failed", error := some err }]) ++
                (s.completed ++ s.downloaded))).Perm
            ({ item with status := "failed", error := some err } ::
              (s.active.eraseIdx idx ++ (s.failed ++ (s.completed ++ s.downloaded)))) := by
          simpa [List.append_assoc] using
            @List.perm_middle _ { item with status := "failed", error := some err }
              (s.active.eraseIdx idx ++ s.failed) (s.completed ++ s.downloaded)
        refine nodup_ids_replace h1 ?_ hnd
        simpa [List.append_assoc] using h2.map QueueItem.id
      · intro it hit
        exact hA it (mem_eraseIdx hit)
      · intro it hit
        simp only [List.mem_append, List.mem_singleton] at hit
        rcases hit with hit | rfl
        · exact hF it hit
        · rfl

theorem Inv_mark_completed (item_id : String) (s : Store) (h : Inv s) :
    Inv (mark_completed item_id s) := by
  obtain ⟨hnd, hA, hF, hC, hD⟩ := h
  unfold mark_completed
  split
  · exact ⟨hnd, hA, hF, hC, hD⟩
  next idx hfi =>
    split
    · exact ⟨hnd, hA, hF, hC, hD⟩
    next item hget =>
      have hpermA : s.active.Perm (item :: s.active.eraseIdx idx) :=
        get?_perm_eraseIdx _ _ _ hget
      refine ⟨?_, ?_, hF, ?_, hD⟩
      · simp only [idsOf, List.append_assoc] at hnd ⊢
        have h1 : (s.active ++ (s.failed ++ (s.completed ++ s.downloaded))).Perm
            (item :: (s.active.eraseIdx idx ++ (s.failed ++ (s.completed ++ s.downloaded)))) := by
          simpa using hpermA.append_right (s.failed ++ (s.completed ++ s.downloaded))
        have h2 : (s.active.eraseIdx idx ++
              (s.failed ++ ((s.completed ++ [{ item with status := "completed", error := none }]) ++
                s.downloaded))).Perm
            ({ item with status := "completed", error := none } ::
              (s.active.eraseIdx idx ++ (s.failed ++ (s.completed ++ s.downloaded)))) := by
          simpa [List.append_assoc] using
            @List.perm_middle _ { item with status := "completed", error := none }
              (s.active.eraseIdx idx ++ (s.failed ++ s.completed)) s.downloaded
        refine nodup_ids_replace h1 ?_ hnd
        simpa [List.append_assoc] using h2.map QueueItem.id
      · intro it hit
        exact hA it (mem_eraseIdx hit)
      · intro it hit
        simp only [List.mem_append, List.mem_singleton] at hit
        rcases hit with hit | rfl
        · exact hC it hit
        · rfl

theorem Inv_mark_downloaded (item_id : String) (s : Store) (h : Inv s) :
    Inv (mark_downloaded item_id s) := by
  obtain ⟨hnd, hA, hF, hC, hD⟩ := h
  unfold mark_downloaded
  split
  · exact ⟨hnd, hA, hF, hC, hD⟩
  next idx hfi =>
    split
    · exact ⟨hnd, hA, hF, hC, hD⟩
    next item hget =>
      have hpermC : s.completed.Perm (item :: s.completed.eraseIdx idx) :=
        get?_perm_eraseIdx _ _ _ hget
      refine ⟨?_, hA, hF, ?_, ?_⟩
      · simp only [idsOf, List.append_assoc] at hnd ⊢
        have h1 : (s.active ++ (s.failed ++ (s.completed ++ s.downloaded))).Perm
            (item :: (s.active ++ (s.failed ++ (s.completed.eraseIdx idx ++ s.downloaded)))) := by
          have hmid : ((s.active ++ s.failed) ++ ((item :: s.completed.eraseIdx idx) ++ s.downloaded)).Perm
              (item :: ((s.active ++ s.failed) ++ (s.completed.eraseIdx idx ++ s.downloaded))) := by
            simpa [List.append_assoc] using
              @List.perm_middle _ item (s.active ++ s.failed) (s.completed.eraseIdx idx ++ s.downloaded)
          refine List.Perm.trans ?_ (by simpa [List.append_assoc] using hmid)
          have hstep : (s.completed ++ s.downloaded).Perm
              ((item :: s.completed.eraseIdx idx) ++ s.downloaded) :=
            hpermC.append_right s.downloaded
          have := (hstep.append_left s.failed).append_left s.active
          refine this.trans ?_
          simp [List.append_assoc]
        have h2 : (s.active ++ (s.failed ++ (s.completed.eraseIdx idx ++
              (s.downloaded ++ [{ item with status := "downloaded", error := none }])))).Perm
            ({ item with status := "downloaded", error := none } ::
              (s.active ++ (s.failed ++ (s.completed.eraseIdx idx ++ s.downloaded)))) := by
          simpa [List.append_assoc] using
            @List.perm_middle _ { item with status := "downloaded", error := none }
              (s.active ++ (s.failed ++ (s.completed.eraseIdx idx ++ s.downloaded))) []
        refine nodup_ids_replace h1 ?_ hnd
        simpa [List.append_assoc] using h2.map QueueItem.id
      · intro it hit
        exact hC it (mem_eraseIdx hit)
      · intro it hit
        simp only [List.mem_append, List.mem_singleton] at hit
        rcases hit with hit | rfl
        · exact hD it hit
        · rfl

theorem Inv_retry_failed (item_id : String) (s : Store) (h : Inv s) :
    Inv (retry_failed item_id s) := by
  obtain ⟨hnd, hA, hF, hC, hD⟩ := h
  unfold retry_failed
  split
  · exact ⟨hnd, hA, hF, hC, hD⟩
  next idx hfi =>
    split
    · exact ⟨hnd, hA, hF, hC, hD⟩
    next item hget =>
      have hpermF : s.failed.Perm (item :: s.failed.eraseIdx idx) :=
        get?_perm_eraseIdx _ _ _ hget
      refine ⟨?_, ?_, ?_, hC, hD⟩
      · simp only [idsOf, List.append_assoc] at hnd ⊢
        have h1 : (s.active ++ (s.failed ++ (s.completed ++ s.downloaded))).Perm
            (item :: (s.active ++ (s.failed.eraseIdx idx ++ (s.completed ++ s.downloaded)))) := by
          have hmid : (s.active ++ ((item :: s.failed.eraseIdx idx) ++ (s.completed ++ s.downloaded))).Perm
              (item :: (s.active ++ (s.failed.eraseIdx idx ++ (s.completed ++ s.downloaded)))) := by
            simpa [List.append_assoc] using
              @List.perm_middle _ item s.active (s.failed.eraseIdx idx ++ (s.completed ++ s.downloaded))
          refine List.Perm.trans ?_ hmid
          exact ((hpermF.append_right (s.completed ++ s.downloaded)).append_left s.active)
        have h2 : ((s.active ++ [{ item with status := "pending", error := none }]) ++
              (s.failed.eraseIdx idx ++ (s.completed ++ s.downloaded))).Perm
            ({ item with status := "pending", error := none } ::
              (s.active ++ (s.failed.eraseIdx idx ++ (s.completed ++ s.downloaded)))) := by
          simpa [List.append_assoc] using
            @List.perm_middle _ { item with status := "pending", error := none }
              s.active (s.failed.eraseIdx idx ++ (s.completed ++ s.downloaded))
        refine nodup_ids_replace h1 ?_ hnd
        simpa [List.append_assoc] using h2.map QueueItem.id
      · intro it hit
        simp only [List.mem_append, List.mem_singleton] at hit
        rcases hit with hit | rfl
        · exact hA it hit
        · exact Or.inl rfl
      · intro it hit
        exact hF it (mem_eraseIdx hit)

theorem Inv_clear_failed (s : Store) (h : Inv s) : Inv (clear_failed s) := by
  obtain ⟨hnd, hA, hF, hC, hD⟩ := h
  refine ⟨?_, hA, by intro it hit; simp [clear_failed] at hit, hC, hD⟩
  simp only [idsOf, clear_failed, List.append_assoc] at hnd ⊢
  refine List.Nodup.sublist (List.Sublist.map _ ?_) hnd
  exact List.Sublist.append (List.Sublist.refl _)
    (List.Sublist.append (List.nil_sublist _) (List.Sublist.refl _))

theorem Inv_clear_completed (s : Store) (h : Inv s) : Inv (clear_completed s) := by
  obtain ⟨hnd, hA, hF, hC, hD⟩ := h
  refine ⟨?_, hA, hF, by intro it hit; simp [clear_completed] at hit, hD⟩
  simp only [idsOf, clear_completed, List.append_assoc] at hnd ⊢
  refine List.Nodup.sublist (List.Sublist.map _ ?_) hnd
  refine List.Sublist.append (List.Sublist.refl _) ?_
  refine List.Sublist.append (List.Sublist.refl _) ?_
  exact List.Sublist.append (List.nil_sublist _) (List.Sublist.refl _)

theorem Inv_reset_stuck (s : Store) (h : Inv s) : Inv (reset_stuck_downloads s) := by
  obtain ⟨hnd, hA, hF, hC, hD⟩ := h
  refine ⟨?_, ?_, hF, hC, hD⟩
  · simp only [idsOf, reset_stuck_downloads, List.append_assoc] at hnd ⊢
    have hmap : (s.active.map fun item =>
        if item.status = "downloading" then
          { item with status := "pending", error := some "Download interrupted - please retry" }
        else item).map QueueItem.id = s.active.map QueueItem.id := by
      rw [List.map_map]
      refine List.map_congr_left ?_
      intro a _
      by_cases hst : a.status = "downloading" <;> simp [hst]
    simp only [List.map_append] at hnd ⊢
    rw [hmap]
    exact hnd
  · intro it hit
    simp only [reset_stuck_downloads, List.mem_map] at hit
    obtain ⟨a, ha, rfl⟩ := hit
    by_cases hst : a.status = "downloading"
    · simp [hst]
    · simp only [if_neg hst]
      exact hA a ha

/-- C1: every QueueStore operation (add with a freshly generated pending
item, remove, move, markDownloading, markCompleted, markFailed,
markDownloaded, retryFailed, clearFailed, clearCompleted,
resetStuckDownloads) preserves the invariant that each item identifier
appears in exactly one of the four lists and that list membership matches
the status category. -/
theorem queue_invariant_preserved (op : QOp) (s : Store) (hInv : Inv s)
    (hwf : opWF op s) : Inv (applyOp op s) := by
  cases op with
  | add item => exact Inv_add item s hInv hwf.1 hwf.2
  | remove i => exact Inv_remove i s hInv
  | move i d => exact Inv_move i d s hInv
  | markDownloading i => exact Inv_mark_downloading i s hInv
  | markCompleted i => exact Inv_mark_completed i s hInv
  | markFailed i e => exact Inv_mark_failed i e s hInv
  | markDownloaded i => exact Inv_mark_downloaded i s hInv
  | retryFailed i => exact Inv_retry_failed i s hInv
  | clearFailed => exact Inv_clear_failed s hInv
  | clearCompleted => exact Inv_clear_completed s hInv
  | resetStuck => exact Inv_reset_stuck s hInv

theorem queue_invariant_preserved_witness :
    Inv sPend ∧ opWF (QOp.add itB) sPend ∧ Inv (applyOp (QOp.add itB) sPend) :=
  ⟨by decide, ⟨by decide, rfl⟩,
    queue_invariant_preserved (QOp.add itB) sPend (by decide) ⟨by decide, rfl⟩⟩

theorem mark_downloading_eq (item_id : String) (s : Store) (i : Nat) (item : QueueItem)
    (hfi : find_index s.active item_id = some i) (hget : s.active.get? i = some item) :
    mark_downloading item_id s =
      { s with active := s.active.set i { item with status := "downloading" } } := by
  unfold mark_downloading
  split
  · next h => rw [h] at hfi; cases hfi
  next idx2 h =>
    rw [h] at hfi
    injection hfi with hh
    subst hh
    split
    · next h2 => rw [h2] at hget; cases hget
    next item2 h2 =>
      rw [h2] at hget
      injection hget with hh2
      subst hh2
      rfl

theorem mark_completed_eq (item_id : String) (s : Store) (i : Nat) (item : QueueItem)
    (hfi : find_index s.active item_id = some i) (hget : s.active.get? i = some item) :
    mark_completed item_id s =
      { s with active := s.active.eraseIdx i,
               completed := s.completed ++ [{ item with status := "completed", error := none }] } := by
  unfold mark_completed
  split
  · next h => rw [h] at hfi; cases hfi
  next idx2 h =>
    rw [h] at hfi
    injection hfi with hh
    subst hh
    split
    · next h2 => rw [h2] at hget; cases hget
    next item2 h2 =>
      rw [h2] at hget
      injection hget with hh2
      subst hh2
      rfl

theorem mark_failed_eq (item_id err : String) (s : Store) (i : Nat) (item : QueueItem)
    (hfi : find_index s.active item_id = some i) (hget : s.active.get? i = some item) :
    mark_failed item_id err s =
      { s with active := s.active.eraseIdx i,
               failed := s.failed ++ [{ item with status := "failed", error := some err }] } := by
  unfold mark_failed
  split
  · next h => rw [h] at hfi; cases hfi
  next idx2 h =>
    rw [h] at hfi
    injection hfi with hh
    subst hh
    split
    · next h2 => rw [h2] at hget; cases hget
    next item2 h2 =>
      rw [h2] at hget
      injection hget with hh2
      subst hh2
      rfl

theorem mark_downloaded_eq (item_id : String) (s : Store) (i : Nat) (item : QueueItem)
    (hfi : find_index s.completed item_id = some i) (hget : s.completed.get? i = some item) :
    mark_downloaded item_id s =
      { s with completed := s.completed.eraseIdx i,
               downloaded := s.downloaded ++ [{ item with status := "downloaded", error := none }] } := by
  unfold mark_downloaded
  split
  · next h => rw [h] at hfi; cases hfi
  next idx2 h =>
    rw [h] at hfi
    injection hfi with hh
    subst hh
    split
    · next h2 => rw [h2] at hget; cases hget
    next item2 h2 =>
      rw [h2] at hget
      injection hget with hh2
      subst hh2
      rfl

theorem retry_failed_eq (item_id : String) (s : Store) (i : Nat) (item : QueueItem)
    (hfi : find_index s.failed item_id = some i) (hget : s.failed.get? i = some item) :
    retry_failed item_id s =
      { s with failed := s.failed.eraseIdx i,
               active := s.active ++ [{ item with status := "pending", error := none }] } := by
  unfold retry_failed
  split
  · next h => rw [h] at hfi; cases hfi
  next idx2 h =>
    rw [h] at hfi
    injection hfi with hh
    subst hh
    split
    · next h2 => rw [h2] at hget; cases hget
    next item2 h2 =>
      rw [h2] at hget
      injection hget with hh2
      subst hh2
      rfl

/-- C2 counterexample: the mark operations do not check the current status.
In `sPend` the item "a" has status "pending", yet `mark_completed` moves it
straight to completed and `mark_failed` straight to failed (the same path
`cancel_download` takes for a queued-but-not-started item), contradicting
the claim that an item with status pending is never moved directly to
completed or failed. -/
theorem mark_pending_direct_transition :
    statusIn sPend "a" = some "pending" ∧
    statusIn (mark_completed "a" sPend) "a" = some "completed" ∧
    statusIn (mark_failed "a" "boom" sPend) "a" = some "failed" := by
  decide

/-- C2 amended: each mark operation selects the item only from its source
list (active for markDownloading/markCompleted/markFailed, completed for
markDownloaded, failed for retryFailed), stamps exactly the advertised
target status, and leaves every other list untouched; but markCompleted and
markFailed accept any active item, whose prior status under the invariant is
pending or downloading, so pending items can transition directly. -/
theorem mark_transitions_amended (s : Store) (hInv : Inv s) (item_id err : String) :
    (∀ i item, find_index s.active item_id = some i → s.active.get? i = some item →
      (item.status = "pending" ∨ item.status = "downloading") ∧
      mark_downloading item_id s =
        { s with active := s.active.set i { item with status := "downloading" } } ∧
      mark_completed item_id s =
        { s with active := s.active.eraseIdx i,
                 completed := s.completed ++ [{ item with status := "completed", error := none }] } ∧
      mark_failed item_id err s =
        { s with active := s.active.eraseIdx i,
                 failed := s.failed ++ [{ item with status := "failed", error := some err }] }) ∧
    (∀ i item, find_index s.completed item_id = some i → s.completed.get? i = some item →
      item.status = "completed" ∧
      mark_downloaded item_id s =
        { s with completed := s.completed.eraseIdx i,
                 downloaded := s.downloaded ++ [{ item with status := "downloaded", error := none }] }) ∧
    (∀ i item, find_index s.failed item_id = some i → s.failed.get? i = some item →
      item.status = "failed" ∧
      retry_failed item_id s =
        { s with failed := s.failed.eraseIdx i,
                 active := s.active ++ [{ item with status := "pending", error := none }] }) := by
  obtain ⟨hnd, hA, hF, hC, hD⟩ := hInv
  refine ⟨?_, ?_, ?_⟩
  · intro i item hfi hget
    exact ⟨hA item (List.get?_mem hget), mark_downloading_eq item_id s i item hfi hget,
      mark_completed_eq item_id s i item hfi hget,
      mark_failed_eq item_id err s i item hfi hget⟩
  · intro i item hfi hget
    exact ⟨hC item (List.get?_mem hget), mark_downloaded_eq item_id s i item hfi hget⟩
  · intro i item hfi hget
    exact ⟨hF item (List.get?_mem hget), retry_failed_eq item_id s i item hfi hget⟩

theorem mark_transitions_amended_witness :
    (itP.status = "pending" ∨ itP.status = "downloading") ∧
    mark_downloading "a" sPend =
      { sPend with active := sPend.active.set 0 { itP with status := "downloading" } } ∧
    mark_completed "a" sPend =
      { sPend with active := sPend.active.eraseIdx 0,
                   completed := sPend.completed ++ [{ itP with status := "completed", error := none }] } ∧
    mark_failed "a" "boom" sPend =
      { sPend with active := sPend.active.eraseIdx 0,
                   failed := sPend.failed ++ [{ itP with status := "failed", error := some "boom" }] } :=
  (mark_transitions_amended sPend (by decide) "a" "boom").1 0 itP (by decide) (by decide)

/-- C7: `move` is a no-op on the active list at either boundary (position 0
for up, last position for down) and when the identifier is absent. -/
theorem move_boundary_noop (item_id : String) (s : Store) :
    (find_index s.active item_id = some 0 → move_in_queue item_id "up" s = s) ∧
    (find_index s.active item_id = some (s.active.length - 1) →
      move_in_queue item_id "down" s = s) ∧
    (find_index s.active item_id = none →
      ∀ direction, move_in_queue item_id direction s = s) := by
  refine ⟨?_, ?_, ?_⟩
  · intro h
    simp [move_in_queue, h]
  · intro h
    simp [move_in_queue, h]
  · intro h direction
    simp [move_in_queue, h]

theorem move_boundary_noop_witness :
    (find_index sTwo.active "a" = some 0 ∧ move_in_queue "a" "up" sTwo = sTwo) ∧
    (find_index sTwo.active "b" = some (sTwo.active.length - 1) ∧
      move_in_queue "b" "down" sTwo = sTwo) ∧
    (find_index sTwo.active "zzz" = none ∧ move_in_queue "zzz" "up" sTwo = sTwo) :=
  ⟨⟨by decide, (move_boundary_noop "a" sTwo).1 (by decide)⟩,
   ⟨by decide, (move_boundary_noop "b" sTwo).2.1 (by decide)⟩,
   ⟨by decide, (move_boundary_noop "zzz" sTwo).2.2 (by decide) "up"⟩⟩

theorem popProgress_id {α : Type} (d : List (String × α))
    (h : ∀ kv ∈ d, kv.1 ≠ "progress") : popProgress d = d := by
  unfold popProgress
  rw [List.filter_eq_self]
  intro kv hkv
  simpa using h kv hkv

theorem loadList_entries {α : Type} (items : List (List (String × α)))
    (hnp : ∀ d ∈ items, ∀ kv ∈ d, kv.1 ≠ "progress") :
    (items.map (fun fields => JEntry.dict (popProgress fields))).filterMap
      (fun e => match e with
        | JEntry.dict fields => some (popProgress fields)
        | JEntry.nondict _ => none) = items := by
  induction items with
  | nil => rfl
  | cons d rest ih =>
    have hd := popProgress_id d (hnp d (by simp))
    have hstep : ((d :: rest).map (fun fields => JEntry.dict (popProgress fields))).filterMap
        (fun e => match e with
          | JEntry.dict fields => some (popProgress fields)
          | JEntry.nondict _ => none) =
        popProgress (popProgress d) ::
          (rest.map (fun fields => JEntry.dict (popProgress fields))).filterMap
            (fun e => match e with
              | JEntry.dict fields => some (popProgress fields)
              | JEntry.nondict _ => none) := rfl
    rw [hstep, hd, hd, ih (fun d2 h2 kv hkv => hnp d2 (by simp [h2]) kv hkv)]

/-- C10: saving a list of dict-shaped records carrying no "progress" field
and immediately loading the same key returns the list unchanged. -/
theorem save_load_roundtrip {α : Type} (c : Cache α) (key : String)
    (items : List (List (String × α)))
    (hnp : ∀ d ∈ items, ∀ kv ∈ d, kv.1 ≠ "progress") :
    loadList (saveList c key items) key = items := by
  have hget : cacheGet (saveList c key items) key =
      some (.list (items.map (fun fields => .dict (popProgress fields)))) := by
    unfold saveList cacheSet cacheGet
    simp
  unfold loadList
  rw [hget]
  exact loadList_entries items hnp

theorem save_load_roundtrip_witness :
    loadList (saveList cacheW "queue_active"
      [[("id", "a"), ("status", "pending")], [("id", "b"), ("status", "downloading")]])
      "queue_active" =
      [[("id", "a"), ("status", "pending")], [("id", "b"), ("status", "downloading")]] :=
  save_load_roundtrip cacheW "queue_active"
    [[("id", "a"), ("status", "pending")], [("id", "b"), ("status", "downloading")]]
    (by decide)

/-- C8 counterexample: the code's check is substring containment, not
domain membership.  The URL "https://evil.com/fastshare.cloud" is hosted on
evil.com, yet the handler accepts it and appends an item. -/
theorem domain_substring_counterexample :
    belongsToFastshare "https://evil.com/fastshare.cloud" = false ∧
    (add_to_queue_handler "https://evil.com/fastshare.cloud" "id1" "t" "s" "now" w0).1 = none ∧
    (add_to_queue_handler "https://evil.com/fastshare.cloud" "id1" "t" "s" "now" w0).2.store.active =
      [{ id := "id1", url := "https://evil.com/fastshare.cloud", title := "t", size := "s",
         status := "pending", added_at := "now", error := none }] := by
  refine ⟨by decide, ?_, ?_⟩ <;> decide

/-- C8 amended: the handler accepts a submission exactly when the stripped
URL is non-empty and contains the substring "fastshare.cloud" anywhere (not
a host/domain check); rejections leave the state untouched; acceptance
appends exactly one pending item with the fresh identifier to the active
list and leaves the other three lists untouched. -/
theorem enqueue_amended (rawUrl freshId title size timestamp : String) (w : WebSt) :
    ((add_to_queue_handler rawUrl freshId title size timestamp w).1 ≠ none ↔
      (pyStrip rawUrl = "" ∨ strContains (pyStrip rawUrl) "fastshare.cloud" = false)) ∧
    ((add_to_queue_handler rawUrl freshId title size timestamp w).1 ≠ none →
      (add_to_queue_handler rawUrl freshId title size timestamp w).2 = w) ∧
    ((add_to_queue_handler rawUrl freshId title size timestamp w).1 = none →
      (add_to_queue_handler rawUrl freshId title size timestamp w).2.store.active =
        w.store.active ++ [{ id := freshId, url := pyStrip rawUrl, title := title, size := size,
                             status := "pending", added_at := timestamp, error := none }] ∧
      (add_to_queue_handler rawUrl freshId title size timestamp w).2.store.failed = w.store.failed ∧
      (add_to_queue_handler rawUrl freshId title size timestamp w).2.store.completed =
        w.store.completed ∧
      (add_to_queue_handler rawUrl freshId title size timestamp w).2.store.downloaded =
        w.store.downloaded) := by
  by_cases h1 : pyStrip rawUrl = ""
  · simp [add_to_queue_handler, h1]
  · by_cases h2 : strContains (pyStrip rawUrl) "fastshare.cloud" = false
    · simp [add_to_queue_handler, h1, h2]
    · simp [add_to_queue_handler, h1, h2, add_to_queue]

theorem enqueue_amended_witness :
    (add_to_queue_handler "https://fastshare.cloud/file/9" "id7" "T" "9 MB" "now" w0).2.store.active =
      w0.store.active ++ [{ id := "id7", url := "https://fastshare.cloud/file/9", title := "T",
                            size := "9 MB", status := "pending", added_at := "now", error := none }] ∧
    (add_to_queue_handler "https://fastshare.cloud/file/9" "id7" "T" "9 MB" "now" w0).2.store.failed =
      w0.store.failed ∧
    (add_to_queue_handler "https://fastshare.cloud/file/9" "id7" "T" "9 MB" "now" w0).2.store.completed =
      w0.store.completed ∧
    (add_to_queue_handler "https://fastshare.cloud/file/9" "id7" "T" "9 MB" "now" w0).2.store.downloaded =
      w0.store.downloaded :=
  (enqueue_amended "https://fastshare.cloud/file/9" "id7" "T" "9 MB" "now" w0).2.2 (by decide)

/-- C4 counterexample: a page whose first form has an empty action and whose
second form has a "/free/" action does not resolve to the second form's
action: the code gives up as soon as the first form's action is empty, never
reaching the scan (which would have found the second form). -/
theorem first_form_empty_action_counterexample :
    strStartsWith "/free/dl/7" "/free/" = true ∧
    findFreeForm [{ action := some "" }, { action := some "/free/dl/7" }] = some "/free/dl/7" ∧
    resolveFormAction [{ action := some "" }, { action := some "/free/dl/7" }] = none := by
  refine ⟨by decide, by decide, by decide⟩

/-- C4 amended: with no form the step fails; a first form whose action is
missing, empty or not a string makes the step fail without scanning further
forms; a first-form action starting with "/free/" is used; only otherwise
(non-empty, non-matching first action) are all forms scanned for the first
"/free/" action, failing when none qualifies; and the body converts a
failed resolution into the "Could not get download form" failure. -/
theorem resolve_form_amended (forms : List Form) :
    (resolveFormAction [] = none) ∧
    (∀ f rest, forms = f :: rest →
      (f.action = none → resolveFormAction forms = none) ∧
      (f.action = some "" → resolveFormAction forms = none) ∧
      (∀ a, f.action = some a → a ≠ "" → strStartsWith a "/free/" = true →
        resolveFormAction forms = some a) ∧
      (∀ a, f.action = some a → a ≠ "" → strStartsWith a "/free/" = false →
        resolveFormAction forms = findFreeForm forms)) ∧
    (∀ a, findFreeForm forms = some a →
      strStartsWith a "/free/" = true ∧ ∃ f ∈ forms, f.action = some a) ∧
    ((findFreeForm forms = none) ↔
      ∀ f ∈ forms, ∀ a, f.action = some a → strStartsWith a "/free/" = false) ∧
    (∀ item_id fuel (rest : List Attempt) (st : St) (p : Except String PostResp),
      resolveFormAction forms = none →
      downloadBody item_id fuel ({ page := .ok forms, post := p } :: rest) st =
        ⟨markFailedSt item_id "Could not get download form" st, rest, none⟩) := by
  refine ⟨rfl, ?_, ?_, ?_, ?_⟩
  · rintro f rest rfl
    refine ⟨?_, ?_, ?_, ?_⟩
    · intro h
      simp [resolveFormAction, h]
    · intro h
      simp [resolveFormAction, h]
    · intro a ha hne hpre
      simp [resolveFormAction, ha, hne, hpre]
    · intro a ha hne hpre
      simp [resolveFormAction, ha, hne, hpre]
  · intro a
    induction forms with
    | nil => intro h; cases h
    | cons f rest ih =>
      intro h
      cases hfa : f.action with
      | none =>
        simp only [findFreeForm, hfa] at h
        obtain ⟨hpre, g, hg, hga⟩ := ih h
        exact ⟨hpre, g, by simp [hg], hga⟩
      | some fa =>
        simp only [findFreeForm, hfa] at h
        by_cases hp : strStartsWith fa "/free/" = true
        · rw [if_pos hp] at h
          injection h with hh
          subst hh
          exact ⟨hp, f, by simp, hfa⟩
        · rw [if_neg hp] at h
          obtain ⟨hpre, g, hg, hga⟩ := ih h
          exact ⟨hpre, g, by simp [hg], hga⟩
  · induction forms with
    | nil => simp [findFreeForm]
    | cons f rest ih =>
      cases hfa : f.action with
      | none =>
        simp only [findFreeForm, hfa]
        constructor
        · intro h g hg a hga
          rcases List.mem_cons.mp hg with rfl | hg2
          · rw [hfa] at hga; cases hga
          · exact ih.mp h g hg2 a hga
        · intro h
          exact ih.mpr (fun g hg a hga => h g (by simp [hg]) a hga)
      | some fa =>
        simp only [findFreeForm, hfa]
        by_cases hp : strStartsWith fa "/free/" = true
        · rw [if_pos hp]
          constructor
          · intro h; cases h
          · intro h
            have := h f (by simp) fa hfa
            rw [hp] at this
            cases this
        · rw [if_neg hp]
          constructor
          · intro h g hg a hga
            rcases List.mem_cons.mp hg with rfl | hg2
            · rw [hfa] at hga
              injection hga with hh
              subst hh
              simpa using hp
            · exact ih.mp h g hg2 a hga
          · intro h
            exact ih.mpr (fun g hg a hga => h g (by simp [hg]) a hga)
  · intro item_id fuel rest st p h
    simp [downloadBody, h]

theorem resolve_form_amended_witness :
    resolveFormAction [{ action := some "x" }] = findFreeForm [{ action := some "x" }] ∧
    downloadBody "a" 1 [{ page := .ok [], post := .error "unused" }] stW =
      ⟨markFailedSt "a" "Could not get download form" stW, [], none⟩ :=
  ⟨((resolve_form_amended [{ action := some "x" }]).2.1 { action := some "x" } [] rfl).2.2.2
      "x" rfl (by decide) (by decide),
   (resolve_form_amended []).2.2.2.2 "a" 1 [] stW (.error "unused") rfl⟩

theorem contains_filter_ne (l : List String) (a : String) :
    (l.filter (fun k => k != a)).contains a = false := by
  induction l with
  | nil => rfl
  | cons x xs ih =>
    rw [List.filter_cons]
    by_cases hx : x = a
    · simp [hx, ih]
    · have hne : (x != a) = true := by simp [hx]
      rw [if_pos hne, List.contains_cons, ih]
      simp [Ne.symm hx]

/-- C6: whenever `download_file` registers a cancellation event (the pending
check passed), the identifier is gone from the registry when it returns,
whatever the outcome of the body: the finally-cleanup removes it
unconditionally. -/
theorem cancel_registry_cleared (item_id : String) (evs : List Attempt) (st : St)
    (item : QueueItem) (hpend : getPendingItem st.store item_id = some item) :
    (download_file item_id evs st).cancelKeys.contains item_id = false := by
  unfold download_file
  rw [hpend]
  exact contains_filter_ne _ _

theorem cancel_registry_cleared_witness :
    getPendingItem stW.store "a" = some itP ∧
    (download_file "a" [] stW).cancelKeys.contains "a" = false :=
  ⟨by decide, cancel_registry_cleared "a" [] stW itP (by decide)⟩

theorem update_item_progress_store (item_id : String) (p : Option Nat) (st : St) :
    (update_item_progress item_id p st).store = st.store := by
  unfold update_item_progress
  cases p <;> rfl

theorem recordWait_store (w : Nat) (st : St) : (recordWait w st).store = st.store := rfl

/-- On a run that finishes the stream (no cancellation), the chunk loop only
touches the progress map and the ghost trace, never the store. -/
theorem streamLoop_store (item_id : String) (total : Nat) (chunks : List Chunk) :
    ∀ (d bs : Nat) (lp : Int) (st : St),
      (streamLoop item_id total chunks d bs lp st).1 = .finished →
      (streamLoop item_id total chunks d bs lp st).2.store = st.store := by
  induction chunks with
  | nil => intro d bs lp st _; rfl
  | cons c rest ih =>
    intro d bs lp st h
    by_cases hc : c.cancelSet = true
    · rw [streamLoop] at h
      simp [hc] at h
    · by_cases hi : c.intervalElapsed = true
      · rw [streamLoop] at h ⊢
        simp only [hc, Bool.false_eq_true, if_false, hi, if_true] at h ⊢
        rw [ih _ _ _ _ h, update_item_progress_store]
      · by_cases ht : 0 < total
        · by_cases hlt : lp < ((pct (d + c.size) total : Nat) : Int)
          · rw [streamLoop] at h ⊢
            simp only [hc, Bool.false_eq_true, if_false, hi, ht, if_true, hlt] at h ⊢
            rw [ih _ _ _ _ h, update_item_progress_store]
          · rw [streamLoop] at h ⊢
            simp only [hc, Bool.false_eq_true, if_false, hi, ht, if_true, hlt] at h ⊢
            exact ih _ _ _ _ h
        · rw [streamLoop] at h ⊢
          simp only [hc, Bool.false_eq_true, if_false, hi, ht] at h ⊢
          exact ih _ _ _ _ h

/-- The content handler preserves the store whenever it lets an exception
escape, provided the retry continuation does. -/
theorem downloadFileContentAux_store (handler : List Attempt → St → BodyRes)
    (hhandler : ∀ evs st, (handler evs st).exn ≠ none → (handler evs st).st.store = st.store)
    (item_id : String) (resp : PostResp) (evs : List Attempt) (st : St) :
    (downloadFileContentAux handler item_id resp evs st).exn ≠ none →
    (downloadFileContentAux handler item_id resp evs st).st.store = st.store := by
  unfold downloadFileContentAux
  by_cases hv : isValidContentType (lowerStr resp.contentType) = false
  · by_cases hh : strContains (lowerStr resp.contentType) "text/html" = true
    · simp only [hv, if_true, hh, if_pos]
      exact hhandler evs st
    · simp only [hv, if_true, hh, Bool.false_eq_true, if_false]
      intro hx
      simp at hx
  · simp only [hv, if_false]
    cases hs : streamLoop item_id resp.contentLength resp.chunks 0 0 (-1) st with
    | mk out st2 =>
      cases out with
      | cancelled =>
        intro hx
        simp at hx
      | finished =>
        cases hse : resp.streamExn with
        | none =>
          intro hx
          simp [hse] at hx
        | some e =>
          intro _
          simp only [hse]
          have := streamLoop_store item_id resp.contentLength resp.chunks 0 0 (-1) st
            (by rw [hs])
          rw [hs] at this
          exact this

/-- The retry handler preserves the store whenever it lets an exception
escape. -/
theorem handleHtml_store (item_id : String) (fuel : Nat) :
    ∀ (evs : List Attempt) (rc : Nat) (st : St),
      (handleHtml item_id fuel evs rc st).exn ≠ none →
      (handleHtml item_id fuel evs rc st).st.store = st.store := by
  induction fuel with
  | zero => intro evs rc st _; rfl
  | succ fuel ih =>
    intro evs rc st hexn
    rw [handleHtml] at hexn ⊢
    by_cases hrc : 3 ≤ rc
    · simp [hrc] at hexn
    · simp only [hrc, if_false] at hexn ⊢
      cases evs with
      | nil => rfl
      | cons a rest =>
        cases hp : a.page with
        | error e => simp [hp, recordWait]
        | ok forms =>
          simp only [hp] at hexn ⊢
          cases hr : resolveFormAction forms with
          | none => simp [hr] at hexn
          | some fa =>
            simp only [hr] at hexn ⊢
            cases hpost : a.post with
            | error e =>
              simp only [hpost] at hexn ⊢
              rw [ih _ _ _ hexn]
              rfl
            | ok resp =>
              simp only [hpost] at hexn ⊢
              by_cases hst : resp.status ≠ 200
              · simp [hst] at hexn
              · simp only [hst, if_false] at hexn ⊢
                set r := downloadFileContentAux
                  (fun evs2 st3 => handleHtml item_id fuel evs2 0 st3) item_id resp rest
                  (recordWait (2 ^ rc) st) with hrdef
                cases hre : r.exn with
                | some e2 =>
                  simp only [hre] at hexn ⊢
                  have hr1 : r.st.store = (recordWait (2 ^ rc) st).store := by
                    refine downloadFileContentAux_store _ ?_ item_id resp rest _ ?_
                    · intro evs2 st3
                      exact ih evs2 0 st3
                    · rw [← hrdef, hre]
                      simp
                  rw [ih _ _ _ hexn, hr1]
                  rfl
                | none =>
                  exact absurd (by simp only [hre]) hexn

theorem setupCancelEvent_store (item_id : String) (st : St) :
    (setupCancelEvent item_id st).store = st.store := rfl

theorem cleanupCancelEvent_store (item_id : String) (st : St) :
    (cleanupCancelEvent item_id st).store = st.store := rfl

theorem markFailedSt_store (item_id e : String) (st : St) :
    (markFailedSt item_id e st).store = mark_failed item_id e st.store := rfl

theorem downloadBody_store (item_id : String) (fuel : Nat) (evs : List Attempt) (st : St)
    (hexn : (downloadBody item_id fuel evs st).exn ≠ none) :
    (downloadBody item_id fuel evs st).st.store = st.store := by
  unfold downloadBody at hexn ⊢
  cases evs with
  | nil => rfl
  | cons a rest =>
    cases hp : a.page with
    | error e => simp [hp]
    | ok forms =>
      simp only [hp] at hexn ⊢
      cases hr : resolveFormAction forms with
      | none => simp [hr] at hexn
      | some fa =>
        simp only [hr] at hexn ⊢
        cases hpost : a.post with
        | error e => simp [hpost]
        | ok resp =>
          simp only [hpost] at hexn ⊢
          by_cases hst : resp.status ≠ 200
          · simp [hst] at hexn
          · simp only [hst, if_false] at hexn ⊢
            exact downloadFileContentAux_store _
              (fun evs2 st2 => handleHtml_store item_id fuel evs2 0 st2)
              item_id resp rest st hexn

theorem find_id_of_mem (l : List QueueItem) (item : QueueItem)
    (hnd : (l.map QueueItem.id).Nodup) (hmem : item ∈ l) :
    l.find? (fun i => i.id == item.id) = some item := by
  induction l with
  | nil => cases hmem
  | cons x xs ih =>
    have hnd2 : (x.id :: xs.map QueueItem.id).Nodup := by simpa using hnd
    rcases List.mem_cons.mp hmem with rfl | hmem2
    · simp [List.find?_cons]
    · have hxid : x.id ≠ item.id := by
        intro he
        exact (List.nodup_cons.mp hnd2).1 (he ▸ List.mem_map.mpr ⟨item, hmem2, rfl⟩)
      have hx : (x.id == item.id) = false := by simp [hxid]
      simp only [List.find?_cons, hx]
      exact ih (List.nodup_cons.mp hnd2).2 hmem2

theorem find_index_get_of_find? (l : List QueueItem) (a : String) (item : QueueItem)
    (h : l.find? (fun i => i.id == a) = some item) :
    ∃ i, find_index l a = some i ∧ l.get? i = some item := by
  induction l with
  | nil => simp [List.find?] at h
  | cons x xs ih =>
    by_cases hx : (x.id == a) = true
    · have hxx : item = x := by
        simp only [List.find?_cons, hx] at h
        injection h with hh
        exact hh.symm
      subst hxx
      have hxa : item.id = a := by simpa using hx
      exact ⟨0, by simp [find_index, hxa], rfl⟩
    · have hx2 : (x.id == a) = false := by simpa using hx
      simp only [List.find?_cons, hx2] at h
      obtain ⟨i, hfi, hget⟩ := ih h
      refine ⟨i + 1, ?_, by simpa using hget⟩
      have hne : ¬ x.id = a := by simpa using hx2
      simp [find_index, hne, hfi]

theorem find_index_map_id (l l2 : List QueueItem) (a : String)
    (h : l.map QueueItem.id = l2.map QueueItem.id) :
    find_index l a = find_index l2 a := by
  induction l generalizing l2 with
  | nil =>
    cases l2 with
    | nil => rfl
    | cons y ys => simp at h
  | cons x xs ih =>
    cases l2 with
    | nil => simp at h
    | cons y ys =>
      simp only [List.map_cons, List.cons.injEq] at h
      obtain ⟨h1, h2⟩ := h
      unfold find_index
      rw [h1, ih ys h2]

theorem id_not_in_failed (s : Store) (hnd : (idsOf s).Nodup) (item : QueueItem)
    (hmem : item ∈ s.active) : ∀ x ∈ s.failed, x.id ≠ item.id := by
  intro x hx heq
  have hsub : (s.active.map QueueItem.id ++ s.failed.map QueueItem.id).Nodup := by
    have h0 : (s.active.map QueueItem.id ++ (s.failed.map QueueItem.id ++
        (s.completed.map QueueItem.id ++ s.downloaded.map QueueItem.id))).Nodup := by
      simpa [idsOf, List.append_assoc] using hnd
    refine List.Nodup.sublist ?_ h0
    exact List.Sublist.append (List.Sublist.refl _) (List.sublist_append_left _ _)
  exact List.disjoint_of_nodup_append hsub
    (List.mem_map.mpr ⟨item, hmem, rfl⟩) (List.mem_map.mpr ⟨x, hx, heq⟩)

theorem findItem_append_singleton (F : List QueueItem) (t : QueueItem) (a : String)
    (hnone : ∀ x ∈ F, x.id ≠ a) (ht : t.id = a) :
    findItem (F ++ [t]) a = some t := by
  induction F with
  | nil => simp [findItem, List.find?, ht]
  | cons x xs ih =>
    have hx : (x.id == a) = false := by simp [hnone x (by simp)]
    simp only [findItem, List.cons_append, List.find?_cons, hx]
    exact ih (fun y hy => hnone y (by simp [hy]))

theorem findItem_eraseIdx_none (l : List QueueItem) (i : Nat) (a : QueueItem) (s : String)
    (hnd : (l.map QueueItem.id).Nodup) (hget : l.get? i = some a) (ha : a.id = s) :
    findItem (l.eraseIdx i) s = none := by
  have hperm := get?_perm_eraseIdx l i a hget
  have hnd2 : (a.id :: (l.eraseIdx i).map QueueItem.id).Nodup := by
    simpa using (hperm.map QueueItem.id).nodup hnd
  have hnotin := (List.nodup_cons.mp hnd2).1
  unfold findItem
  rw [List.find?_eq_none]
  intro x hx hbe
  have hxs : x.id = s := by simpa using hbe
  apply hnotin
  rw [ha, ← hxs]
  exact List.mem_map.mpr ⟨x, hx, rfl⟩

/-- C5: when the body of a download attempt lets an exception with message
`e` escape, `download_file` catches it at its top level and converts it into
a failed transition carrying exactly that message (the item leaves the
active list and lands in failed with error `e`); the worker iteration that
drove it returns normally — in this embedding `worker_iteration` is a total
function into `St`, so no exception can propagate out of an iteration. -/
theorem body_exception_to_failed (evs : List Attempt) (st : St) (item : QueueItem) (e : String)
    (hInv : Inv st.store)
    (hfirst : st.store.active.find? (fun it => it.status == "pending") = some item)
    (hexn : (downloadBody item.id (evs.length + 1) evs
        (update_item_progress item.id (some 0)
          (setupCancelEvent item.id
            { st with store := mark_downloading item.id st.store }))).exn = some e) :
    worker_iteration evs st = download_file item.id evs st ∧
    findItem (download_file item.id evs st).store.failed item.id =
      some { item with status := "failed", error := some e } ∧
    findItem (download_file item.id evs st).store.active item.id = none := by
  obtain ⟨hnd, hA, hF, hC, hD⟩ := hInv
  have hmem : item ∈ st.store.active := List.mem_of_find?_eq_some hfirst
  have hstat : item.status = "pending" := by simpa using List.find?_some hfirst
  have hndA : (st.store.active.map QueueItem.id).Nodup := by
    have h0 : (st.store.active.map QueueItem.id ++ ((st.store.failed ++
        (st.store.completed ++ st.store.downloaded)).map QueueItem.id)).Nodup := by
      simpa [idsOf, List.append_assoc] using hnd
    exact List.Nodup.sublist (List.sublist_append_left _ _) h0
  have hfid : st.store.active.find? (fun i => i.id == item.id) = some item :=
    find_id_of_mem _ _ hndA hmem
  have hpend : getPendingItem st.store item.id = some item := by
    unfold getPendingItem
    simp only [hfid]
    rw [if_pos hstat]
  obtain ⟨i, hfi, hget⟩ := find_index_get_of_find? _ _ _ hfid
  have hmark := mark_downloading_eq item.id st.store i item hfi hget
  have hbody := downloadBody_store item.id (evs.length + 1) evs
      (update_item_progress item.id (some 0) (setupCancelEvent item.id
        { st with store := mark_downloading item.id st.store }))
      (by rw [hexn]; simp)
  -- the store at the moment the exception is caught
  have hdfStore : (download_file item.id evs st).store =
      mark_failed item.id e (mark_downloading item.id st.store) := by
    simp only [download_file, hpend, hexn]
    simp only [cleanupCancelEvent_store, markFailedSt_store]
    rw [hbody]
    simp only [update_item_progress_store, setupCancelEvent_store]
  -- facts about the marked store
  have hmapeq : (st.store.active.set i { item with status := "downloading" }).map QueueItem.id
      = st.store.active.map QueueItem.id := by
    rw [List.map_set]
    refine set_of_get?_self _ _ _ ?_
    rw [List.get?_map, hget]
    rfl
  have hfi2 : find_index (st.store.active.set i { item with status := "downloading" }) item.id
      = some i := by
    rw [find_index_map_id _ st.store.active _ hmapeq]
    exact hfi
  have hget2 : (st.store.active.set i { item with status := "downloading" }).get? i
      = some { item with status := "downloading" } := by
    rw [List.get?_set_eq, hget]
    rfl
  have hfail := mark_failed_eq item.id e (mark_downloading item.id st.store) i
    { item with status := "downloading" } (by rw [hmark]; exact hfi2) (by rw [hmark]; exact hget2)
  refine ⟨?_, ?_, ?_⟩
  · unfold worker_iteration
    rw [hfirst]
  · rw [hdfStore, hfail, hmark]
    exact findItem_append_singleton _ _ _
      (id_not_in_failed st.store hnd item hmem) rfl
  · rw [hdfStore, hfail, hmark]
    exact findItem_eraseIdx_none _ i { item with status := "downloading" } item.id
      (by rw [hmapeq]; exact hndA) hget2 rfl

theorem body_exception_to_failed_witness :
    Inv stW.store ∧
    stW.store.active.find? (fun it => it.status == "pending") = some itP ∧
    (downloadBody "a" ([({ page := Except.error "boom", post := Except.error "x" } : Attempt)].length + 1)
      [({ page := Except.error "boom", post := Except.error "x" } : Attempt)]
      (update_item_progress "a" (some 0)
        (setupCancelEvent "a" { stW with store := mark_downloading "a" stW.store }))).exn
      = some "boom" ∧
    worker_iteration [({ page := Except.error "boom", post := Except.error "x" } : Attempt)] stW =
      download_file "a" [({ page := Except.error "boom", post := Except.error "x" } : Attempt)] stW ∧
    findItem (download_file "a"
        [({ page := Except.error "boom", post := Except.error "x" } : Attempt)] stW).store.failed "a" =
      some { itP with status := "failed", error := some "boom" } ∧
    findItem (download_file "a"
        [({ page := Except.error "boom", post := Except.error "x" } : Attempt)] stW).store.active "a" =
      none := by
  have h := body_exception_to_failed
    [({ page := Except.error "boom", post := Except.error "x" } : Attempt)] stW itP "boom"
    (by decide) (by decide) rfl
  exact ⟨by decide, by decide, rfl, h.1, h.2.1, h.2.2⟩

theorem stW_start :
    update_item_progress "a" (some 0)
      (setupCancelEvent "a" { stW with store := mark_downloading "a" stW.store }) = stDown := by
  decide

/-- `download_file` on the one-pending-item state, reduced to its body. -/
theorem download_file_stW (evs : List Attempt) :
    download_file "a" evs stW =
      cleanupCancelEvent "a"
        (match (downloadBody "a" (evs.length + 1) evs stDown).exn with
          | some e => markFailedSt "a" e (downloadBody "a" (evs.length + 1) evs stDown).st
          | none => (downloadBody "a" (evs.length + 1) evs stDown).st) := by
  have hg : getPendingItem stW.store "a" = some itP := by decide
  simp only [download_file, hg, stW_start]

theorem addUnitWaits_recordWait (n : Nat) (st : St) :
    addUnitWaits n (recordWait 1 st) = addUnitWaits (n + 1) st := by
  simp [addUnitWaits, recordWait, List.replicate_succ]

/-- One pass of the retry handler over a holding-page response re-enters the
handler with the counter reset to 0 after a unit wait, provided the nested
run raises nothing. -/
theorem handleHtml_html_step (f : Nat) (evs2 : List Attempt) (st : St)
    (hok : (handleHtml "a" f evs2 0 (recordWait 1 st)).exn = none) :
    handleHtml "a" (f + 1) (htmlAttempt :: evs2) 0 st =
      handleHtml "a" f evs2 0 (recordWait 1 st) := by
  have h0 : handleHtml "a" (f + 1) (htmlAttempt :: evs2) 0 st =
      match (handleHtml "a" f evs2 0 (recordWait 1 st)).exn with
      | some _ => handleHtml "a" f (handleHtml "a" f evs2 0 (recordWait 1 st)).evs (0 + 1)
          (handleHtml "a" f evs2 0 (recordWait 1 st)).st
      | none => handleHtml "a" f evs2 0 (recordWait 1 st) := rfl
  rw [h0, hok]

/-- n holding pages followed by a valid response: n+1 unit waits, then the
item completes. -/
theorem handleHtml_html_script (n : Nat) :
    ∀ (f : Nat) (st : St),
      handleHtml "a" (f + n + 1) (List.replicate n htmlAttempt ++ [okAttempt]) 0 st =
        ⟨markCompletedSt "a" (update_item_progress "a" (some 100) (addUnitWaits (n + 1) st)),
          [], none⟩ := by
  induction n with
  | zero =>
    intro f st
    rfl
  | succ n ih =>
    intro f st
    have heq : List.replicate (n + 1) htmlAttempt ++ [okAttempt] =
        htmlAttempt :: (List.replicate n htmlAttempt ++ [okAttempt]) := by
      simp [List.replicate_succ]
    have harr : f + (n + 1) + 1 = (f + n + 1) + 1 := by omega
    rw [heq, harr]
    rw [handleHtml_html_step (f + n + 1) _ st (by rw [ih f (recordWait 1 st)])]
    rw [ih f (recordWait 1 st), addUnitWaits_recordWait]

/-- Three consecutive exception-raising retried submits: waits 1, 2, 4, then
the cap fires. -/
theorem handleHtml_exn_cap (f : Nat) (e1 e2 e3 : String) (evs : List Attempt) (st : St) :
    handleHtml "a" (f + 4) (exnAttempt e1 :: exnAttempt e2 :: exnAttempt e3 :: evs) 0 st =
      ⟨markFailedSt "a" "Max retries reached for HTML response"
        (recordWait 4 (recordWait 2 (recordWait 1 st))), evs, none⟩ := by
  rfl

theorem cleanupCancelEvent_waits (item_id : String) (st : St) :
    (cleanupCancelEvent item_id st).waits = st.waits := rfl

theorem markCompletedSt_waits (item_id : String) (st : St) :
    (markCompletedSt item_id st).waits = st.waits := rfl

theorem markFailedSt_waits (item_id e : String) (st : St) :
    (markFailedSt item_id e st).waits = st.waits := rfl

theorem update_item_progress_waits (item_id : String) (p : Option Nat) (st : St) :
    (update_item_progress item_id p st).waits = st.waits := by
  unfold update_item_progress
  cases p <;> rfl

theorem addUnitWaits_waits (n : Nat) (st : St) :
    (addUnitWaits n st).waits = st.waits ++ List.replicate n 1 := rfl

/-- C3 counterexample: four consecutive holding-page (text/html) responses
followed by a valid one during a single download attempt.  The code performs
four retries — exceeding the claimed cap of 3 — each preceded by a wait of
2^0 = 1 (the attempt counter is reset to 0 by every HTML response, so the
backoff never grows), and the item then completes instead of failing. -/
theorem html_retry_unbounded_counterexample :
    (download_file "a" [htmlAttempt, htmlAttempt, htmlAttempt, htmlAttempt, okAttempt] stW).waits
      = [1, 1, 1, 1] ∧
    statusIn (download_file "a"
      [htmlAttempt, htmlAttempt, htmlAttempt, htmlAttempt, okAttempt] stW).store "a"
      = some "completed" := by
  refine ⟨?_, ?_⟩ <;> decide

/-- C3 amended: the 3-attempt cap with exponential backoff applies only to
consecutive exception-raising retried submits, not to consecutive HTML
responses.  (a) Any number n of consecutive HTML responses followed by a
valid one yields n+1 retries, each after a unit wait (2^0, since every HTML
response re-enters the handler with the counter reset to 0), and the item
completes — the recursion is bounded only by the responses received.
(b) Three consecutive exceptions during the retried submit wait 2^0, 2^1,
2^2 units and then the item fails with "Max retries reached for HTML
response". -/
theorem html_retry_amended (n : Nat) (e1 e2 e3 : String) :
    (statusIn (download_file "a"
        (htmlAttempt :: (List.replicate n htmlAttempt ++ [okAttempt])) stW).store "a"
        = some "completed" ∧
      (download_file "a" (htmlAttempt :: (List.replicate n htmlAttempt ++ [okAttempt])) stW).waits
        = List.replicate (n + 1) 1) ∧
    (statusIn (download_file "a"
        [htmlAttempt, exnAttempt e1, exnAttempt e2, exnAttempt e3] stW).store "a"
        = some "failed" ∧
      errorIn (download_file "a"
        [htmlAttempt, exnAttempt e1, exnAttempt e2, exnAttempt e3] stW).store "a"
        = some (some "Max retries reached for HTML response") ∧
      (download_file "a" [htmlAttempt, exnAttempt e1, exnAttempt e2, exnAttempt e3] stW).waits
        = [1, 2, 4]) := by
  have hlen : (htmlAttempt :: (List.replicate n htmlAttempt ++ [okAttempt])).length + 1
      = 2 + n + 1 := by
    simp
    omega
  have hbodyA : downloadBody "a"
      ((htmlAttempt :: (List.replicate n htmlAttempt ++ [okAttempt])).length + 1)
      (htmlAttempt :: (List.replicate n htmlAttempt ++ [okAttempt])) stDown =
      ⟨markCompletedSt "a" (update_item_progress "a" (some 100) (addUnitWaits (n + 1) stDown)),
        [], none⟩ := by
    rw [hlen]
    have hred : downloadBody "a" (2 + n + 1)
        (htmlAttempt :: (List.replicate n htmlAttempt ++ [okAttempt])) stDown
        = handleHtml "a" (2 + n + 1) (List.replicate n htmlAttempt ++ [okAttempt]) 0 stDown := rfl
    rw [hred, handleHtml_html_script n 2 stDown]
  have hfinalA : download_file "a" (htmlAttempt :: (List.replicate n htmlAttempt ++ [okAttempt])) stW
      = cleanupCancelEvent "a" (markCompletedSt "a"
          (update_item_progress "a" (some 100) (addUnitWaits (n + 1) stDown))) := by
    rw [download_file_stW, hbodyA]
  have hbodyB : downloadBody "a"
      (([htmlAttempt, exnAttempt e1, exnAttempt e2, exnAttempt e3] : List Attempt).length + 1)
      [htmlAttempt, exnAttempt e1, exnAttempt e2, exnAttempt e3] stDown =
      ⟨markFailedSt "a" "Max retries reached for HTML response"
        (recordWait 4 (recordWait 2 (recordWait 1 stDown))), [], none⟩ :=
    handleHtml_exn_cap 1 e1 e2 e3 [] stDown
  have hfinalB : download_file "a" [htmlAttempt, exnAttempt e1, exnAttempt e2, exnAttempt e3] stW
      = cleanupCancelEvent "a" (markFailedSt "a" "Max retries reached for HTML response"
          (recordWait 4 (recordWait 2 (recordWait 1 stDown)))) := by
    rw [download_file_stW, hbodyB]
  refine ⟨⟨?_, ?_⟩, ?_, ?_, ?_⟩
  · rw [hfinalA]
    have hst : (cleanupCancelEvent "a" (markCompletedSt "a"
        (update_item_progress "a" (some 100) (addUnitWaits (n + 1) stDown)))).store
        = mark_completed "a" stDown.store := rfl
    rw [hst]
    decide
  · rw [hfinalA, cleanupCancelEvent_waits, markCompletedSt_waits, update_item_progress_waits,
      addUnitWaits_waits]
    rfl
  · rw [hfinalB]
    have hst : (cleanupCancelEvent "a" (markFailedSt "a" "Max retries reached for HTML response"
        (recordWait 4 (recordWait 2 (recordWait 1 stDown))))).store
        = mark_failed "a" "Max retries reached for HTML response" stDown.store := rfl
    rw [hst]
    decide
  · rw [hfinalB]
    have hst : (cleanupCancelEvent "a" (markFailedSt "a" "Max retries reached for HTML response"
        (recordWait 4 (recordWait 2 (recordWait 1 stDown))))).store
        = mark_failed "a" "Max retries reached for HTML response" stDown.store := rfl
    rw [hst]
    decide
  · rw [hfinalB, cleanupCancelEvent_waits, markFailedSt_waits]
    rfl

theorem markFailedSt_recorded (item_id e : String) (st : St) :
    (markFailedSt item_id e st).recorded = st.recorded := rfl

theorem pct_mono (a b total : Nat) (h : a ≤ b) : pct a total ≤ pct b total :=
  Nat.div_le_div_right (Nat.mul_le_mul_right 100 h)

theorem pct_le_100 (a total : Nat) (h : a ≤ total) : pct a total ≤ 100 := by
  rcases Nat.eq_zero_or_pos total with h0 | h0
  · simp [pct, h0]
  · have h1 : a * 100 / total ≤ total * 100 / total :=
      Nat.div_le_div_right (Nat.mul_le_mul_right 100 h)
    have h2 : total * 100 / total = 100 := by
      rw [Nat.mul_comm]
      exact Nat.mul_div_cancel 100 h0
    unfold pct
    omega

theorem chain_le_concat (l : List Nat) (a : Nat) (hc : List.Chain' (· ≤ ·) l)
    (hl : ∀ x, l.getLast? = some x → x ≤ a) : List.Chain' (· ≤ ·) (l ++ [a]) := by
  rw [List.chain'_append]
  refine ⟨hc, List.chain'_singleton a, ?_⟩
  intro x hx y hy
  simp only [List.head?_cons, Option.mem_def, Option.some.injEq] at hy
  subst hy
  exact hl x (Option.mem_def.mp hx)

theorem update_item_progress_recorded_some (item_id : String) (v : Nat) (st : St) :
    (update_item_progress item_id (some v) st).recorded = st.recorded ++ [v] := rfl

theorem update_item_progress_recorded_none (item_id : String) (st : St) :
    (update_item_progress item_id none st).recorded = st.recorded := rfl

/-- Every percent value the chunk loop records is the current (monotone)
percentage, so the recorded trace stays sorted; and the last recorded value
is bounded by the percentage of everything downloaded so far. -/
theorem streamLoop_chain (item_id : String) (total : Nat) (chunks : List Chunk) :
    ∀ (d bs : Nat) (lp : Int) (st : St),
      List.Chain' (· ≤ ·) st.recorded →
      (∀ x, st.recorded.getLast? = some x → x ≤ pct d total) →
      List.Chain' (· ≤ ·) (streamLoop item_id total chunks d bs lp st).2.recorded ∧
      (∀ x, (streamLoop item_id total chunks d bs lp st).2.recorded.getLast? = some x →
        x ≤ pct (d + (chunks.map Chunk.size).sum) total) := by
  induction chunks with
  | nil =>
    intro d bs lp st hch hlast
    refine ⟨hch, ?_⟩
    intro x hx
    simpa using hlast x hx
  | cons c rest ih =>
    intro d bs lp st hch hlast
    have hmono : ∀ x, st.recorded.getLast? = some x → x ≤ pct (d + c.size) total :=
      fun x hx => (hlast x hx).trans (pct_mono d (d + c.size) total (Nat.le_add_right _ _))
    have hch2 : List.Chain' (· ≤ ·)
        (update_item_progress item_id (some (pct (d + c.size) total)) st).recorded := by
      rw [update_item_progress_recorded_some]
      exact chain_le_concat _ _ hch hmono
    have hlast2 : ∀ x,
        (update_item_progress item_id (some (pct (d + c.size) total)) st).recorded.getLast?
          = some x → x ≤ pct (d + c.size) total := by
      intro x hx
      rw [update_item_progress_recorded_some] at hx
      simp only [List.getLast?_concat, Option.some.injEq] at hx
      omega
    by_cases hc : c.cancelSet = true
    · rw [streamLoop]
      simp only [hc, if_true]
      refine ⟨by simpa [markFailedSt_recorded] using hch, ?_⟩
      intro x hx
      rw [markFailedSt_recorded] at hx
      have h1 := hlast x hx
      have hm := pct_mono d (d + (c.size + (rest.map Chunk.size).sum)) total (Nat.le_add_right _ _)
      simp only [List.map_cons, List.sum_cons]
      omega
    · by_cases hi : c.intervalElapsed = true
      · rw [streamLoop]
        simp only [hc, Bool.false_eq_true, if_false, hi, if_true]
        by_cases ht : 0 < total
        · simp only [ht, if_true]
          refine ⟨(ih _ _ _ _ hch2 hlast2).1, ?_⟩
          intro x hx
          have hb := (ih _ _ _ _ hch2 hlast2).2 x hx
          simpa [List.sum_cons, ← Nat.add_assoc] using hb
        · simp only [ht, if_false]
          have hch3 : List.Chain' (· ≤ ·)
              (update_item_progress item_id none st).recorded := by
            rw [update_item_progress_recorded_none]
            exact hch
          have hlast3 : ∀ x, (update_item_progress item_id none st).recorded.getLast? = some x →
              x ≤ pct (d + c.size) total := by
            intro x hx
            rw [update_item_progress_recorded_none] at hx
            exact hmono x hx
          refine ⟨(ih _ _ _ _ hch3 hlast3).1, ?_⟩
          intro x hx
          have hb := (ih _ _ _ _ hch3 hlast3).2 x hx
          simpa [List.sum_cons, ← Nat.add_assoc] using hb
      · by_cases ht : 0 < total
        · by_cases hlt : lp < ((pct (d + c.size) total : Nat) : Int)
          · rw [streamLoop]
            simp only [hc, Bool.false_eq_true, if_false, hi, ht, if_true, hlt]
            refine ⟨(ih _ _ _ _ hch2 hlast2).1, ?_⟩
            intro x hx
            have hb := (ih _ _ _ _ hch2 hlast2).2 x hx
            simpa [List.sum_cons, ← Nat.add_assoc] using hb
          · rw [streamLoop]
            simp only [hc, Bool.false_eq_true, if_false, hi, ht, if_true, hlt]
            refine ⟨(ih _ _ _ _ hch hmono).1, ?_⟩
            intro x hx
            have hb := (ih _ _ _ _ hch hmono).2 x hx
            simpa [List.sum_cons, ← Nat.add_assoc] using hb
        · rw [streamLoop]
          simp only [hc, Bool.false_eq_true, if_false, hi, ht]
          refine ⟨(ih _ _ _ _ hch hmono).1, ?_⟩
          intro x hx
          have hb := (ih _ _ _ _ hch hmono).2 x hx
          simpa [List.sum_cons, ← Nat.add_assoc] using hb

theorem downloadFileContentAux_valid (handler : List Attempt → St → BodyRes)
    (item_id ct2 : String) (total : Nat) (chunks : List Chunk) (evs : List Attempt) (st : St)
    (hv : isValidContentType (lowerStr ct2) = true) :
    downloadFileContentAux handler item_id
      { status := 200, contentType := ct2, contentLength := total, chunks := chunks,
        streamExn := none } evs st =
      (match streamLoop item_id total chunks 0 0 (-1) st with
       | (.cancelled, st2) => ⟨st2, evs, none⟩
       | (.finished, st2) =>
         ⟨markCompletedSt item_id (update_item_progress item_id (some 100) st2), evs, none⟩) := by
  simp only [downloadFileContentAux, hv, Bool.true_eq_false, if_false]

/-- C9 counterexample: with a declared Content-Length of 100 and a stream
that actually delivers 105 bytes, the code records 105 mid-stream
(int((105/100)*100), no clamping) and then pushes the final forced 100, so
the recorded percent sequence 0, 105, 100 decreases at the end. -/
theorem progress_overshoot_counterexample :
    (download_file "a"
      [streamAttempt "application/octet-stream" 100
        [{ size := 105, cancelSet := false, intervalElapsed := false }]] stW).recorded
      = [0, 105, 100] ∧
    ¬ List.Chain' (· ≤ ·) [0, 105, 100] := by
  refine ⟨by decide, ?_⟩
  simp [List.chain'_cons]

/-- C9 amended: for a single streaming pass over a validated response (to
completion or cancellation), the recorded percent sequence — the initial 0,
the mid-stream records and the final forced 100 on completion — is
non-decreasing provided the delivered bytes do not exceed the declared
Content-Length (or no Content-Length was declared); the counterexample
shows the proviso is necessary. -/
theorem progress_monotone_amended (ct : String) (total : Nat) (chunks : List Chunk)
    (hv : isValidContentType (lowerStr ct) = true)
    (hsz : total = 0 ∨ (chunks.map Chunk.size).sum ≤ total) :
    List.Chain' (· ≤ ·)
      (download_file "a" [streamAttempt ct total chunks] stW).recorded := by
  have hch0 : List.Chain' (· ≤ ·) stDown.recorded := List.chain'_singleton 0
  have hlast0 : ∀ x, stDown.recorded.getLast? = some x → x ≤ pct 0 total := by
    intro x hx
    have hx0 : some (0 : Nat) = some x := hx
    injection hx0 with hx0
    simp [← hx0, pct]
  rw [download_file_stW]
  have hbody1 : downloadBody "a" ([streamAttempt ct total chunks].length + 1)
      [streamAttempt ct total chunks] stDown =
      downloadFileContentAux
        (fun evs2 st2 => handleHtml "a" ([streamAttempt ct total chunks].length + 1) evs2 0 st2)
        "a" { status := 200, contentType := ct, contentLength := total, chunks := chunks,
              streamExn := none } [] stDown := rfl
  rw [hbody1, downloadFileContentAux_valid _ _ _ _ _ _ _ hv]
  have hchain := streamLoop_chain "a" total chunks 0 0 (-1) stDown hch0 hlast0
  cases hs : streamLoop "a" total chunks 0 0 (-1) stDown with
  | mk out st2 =>
    rw [hs] at hchain
    obtain ⟨hch, hlastB⟩ := hchain
    cases out with
    | cancelled => exact hch
    | finished =>
      refine chain_le_concat _ _ hch ?_
      intro x hx
      have hb := hlastB x hx
      rcases hsz with h0 | h0
      · simp only [h0, pct, Nat.div_zero] at hb
        omega
      · have h1 : pct (0 + (chunks.map Chunk.size).sum) total ≤ 100 :=
          pct_le_100 _ total (by simpa using h0)
        omega

theorem progress_monotone_amended_witness :
    List.Chain' (· ≤ ·)
      (download_file "a" [streamAttempt "application/octet-stream" 100
        [{ size := 50, cancelSet := false, intervalElapsed := false },
         { size := 50, cancelSet := false, intervalElapsed := true }]] stW).recorded :=
  progress_monotone_amended "application/octet-stream" 100
    [{ size := 50, cancelSet := false, intervalElapsed := false },
     { size := 50, cancelSet := false, intervalElapsed := true }]
    (by decide) (Or.inr (by decide))

theorem html_retry_amended_witness :
    statusIn (download_file "a"
      (htmlAttempt :: (List.replicate 4 htmlAttempt ++ [okAttempt])) stW).store "a"
      = some "completed" ∧
    (download_file "a" (htmlAttempt :: (List.replicate 4 htmlAttempt ++ [okAttempt])) stW).waits
      = List.replicate 5 1 :=
  (html_retry_amended 4 "x" "y" "z").1

end Fsqd
